import Mathlib

/-
  Verification development for the wobbly-life-editor core codec
  (crates/wle-core: binfmt.rs, binfmt_write.rs, edit.rs).

  The Rust code is shallowly embedded: byte buffers are `List Nat` (each
  entry < 256 for real buffers), machine integers are `Nat`/`Int` with
  explicit two's-complement reinterpretation where the source casts,
  strings are their UTF-8 byte lists, floats are carried as their IEEE bit
  patterns (the codec only moves bits, it never does float arithmetic),
  and the parser's mutual recursion is driven by an explicit fuel
  parameter (the artificial `PErr.outOfFuel` outcome marks exhaustion;
  every theorem below either supplies concrete fuel or quantifies over
  sufficient fuel).
-/

namespace WLE

/-- Bytes of an ASCII string literal (all literals used by the codec are
ASCII, so `Char.toNat` per character is exactly the UTF-8 byte list). -/
def strBytes (s : String) : List Nat := s.data.map Char.toNat

/-- Little-endian byte list (length `w`) of `v`, mirroring `to_le_bytes`. -/
def natToLE : Nat → Nat → List Nat
  | 0, _ => []
  | w + 1, v => v % 256 :: natToLE w (v / 256)

/-- Value of a little-endian byte list, mirroring `from_le_bytes`. -/
def leVal : List Nat → Nat
  | [] => 0
  | b :: bs => b + 256 * leVal bs

/-- Reinterpretation of a `u32` bit pattern as an `i32` (two's complement). -/
def toI32 (n : Nat) : Int :=
  if n < 2 ^ 31 then (n : Int) else (n : Int) - 2 ^ 32

/-- Reinterpretation of a `u64` bit pattern as an `i64` (two's complement). -/
def toI64 (n : Nat) : Int :=
  if n < 2 ^ 63 then (n : Int) else (n : Int) - 2 ^ 64

/-- Reinterpretation of a `u8` bit pattern as an `i8` (two's complement),
for `read_i8`. -/
def toI8 (n : Nat) : Int :=
  if n < 2 ^ 7 then (n : Int) else (n : Int) - 2 ^ 8

/-- Semantics of the Rust cast `i as usize` for `i : i32` on a 64-bit
target: sign-extension, i.e. two's-complement reinterpretation mod 2^64. -/
def usizeOfI32 (i : Int) : Nat := (i % (2 ^ 64 : Int)).toNat

/-- Semantics of `v.to_le_bytes()` for `v : i32`. -/
def i32LE (v : Int) : List Nat := natToLE 4 ((v % (2 ^ 32 : Int)).toNat)

/-- Semantics of `v.to_le_bytes()` for `v : i64`. -/
def i64LE (v : Int) : List Nat := natToLE 8 ((v % (2 ^ 64 : Int)).toNat)

/-- Byte-scan state machine for UTF-8 validation, encoding the RFC 3629
table enforced by `std::str::from_utf8`. The state is the number of
continuation bytes still required, together with the inclusive range the
next byte must lie in (0xE0/0xED and 0xF0/0xF4 restrict their second
byte; every later continuation byte is 0x80..=0xBF). -/
def utf8Scan : Nat × Nat × Nat → List Nat → Bool
  | (0, _, _), [] => true
  | (0, _, _), b :: rest =>
    if b < 0x80 then utf8Scan (0, 0, 0) rest
    else if b < 0xC2 then false
    else if b ≤ 0xDF then utf8Scan (1, 0x80, 0xBF) rest
    else if b = 0xE0 then utf8Scan (2, 0xA0, 0xBF) rest
    else if b = 0xED then utf8Scan (2, 0x80, 0x9F) rest
    else if b ≤ 0xEF then utf8Scan (2, 0x80, 0xBF) rest
    else if b = 0xF0 then utf8Scan (3, 0x90, 0xBF) rest
    else if b ≤ 0xF3 then utf8Scan (3, 0x80, 0xBF) rest
    else if b = 0xF4 then utf8Scan (3, 0x80, 0x8F) rest
    else false
  | (_ + 1, _, _), [] => false
  | (k + 1, lo, hi), c :: rest =>
    if lo ≤ c ∧ c ≤ hi then utf8Scan (k, 0x80, 0xBF) rest else false

/-- UTF-8 validity of a byte list, mirroring the acceptance condition of
`std::str::from_utf8` (RFC 3629 well-formed byte sequences). -/
def utf8Valid (s : List Nat) : Bool := utf8Scan (0, 0, 0) s

/-- ASCII byte lists are valid UTF-8. -/
theorem utf8Valid_of_ascii : ∀ s : List Nat, (∀ b ∈ s, b < 0x80) → utf8Valid s = true := by
  intro s h
  induction s with
  | nil => rfl
  | cons b rest ih =>
    have hb : b < 0x80 := h b (List.mem_cons_self ..)
    show utf8Scan (0, 0, 0) (b :: rest) = true
    rw [utf8Scan]
    simp only [if_pos hb]
    exact ih fun x hx => h x (List.mem_cons_of_mem _ hx)

/-- PrimitiveType: the 17 primitive scalar kind codes (binfmt.rs). -/
inductive PrimType where
  | boolean | byte | char | decimal | double | int16 | int32 | int64
  | sbyte | single | timeSpan | dateTime | uint16 | uint32 | uint64
  | nullT | stringT
deriving DecidableEq, Repr

/-- BinaryType: the 8 member/element type descriptor codes (binfmt.rs).
The Rust `Class` constructor is spelled `classT` (keyword clash). -/
inductive BinaryType where
  | primitive (p : PrimType)
  | stringB
  | object
  | systemClass
  | classT
  | objectArray
  | stringArray
  | primitiveArray (p : PrimType)
deriving DecidableEq, Repr

/-- Value: the dynamic tagged union `binfmt::Value`. Floats are carried as
bit patterns; `obj` inlines `DynObject` (class name, library id, ordered
members). -/
inductive Val where
  | null
  | bool (b : Bool)
  | i32 (x : Int)
  | i64 (x : Int)
  | u32 (x : Nat)
  | u64 (x : Nat)
  | f32 (bits : Nat)
  | f64 (bits : Nat)
  | u8 (x : Nat)
  | str (s : List Nat)
  | bytes (b : List Nat)
  | arr (xs : List Val)
  | obj (className : List Nat) (libraryId : Int) (members : List (List Nat × Val))
  | ref (id : Int)
deriving Repr

/-- ClassMeta: a registered class layout (binfmt.rs). -/
structure ClassMeta where
  className : List Nat
  libraryId : Int
  memberNames : List (List Nat)
  memberTypes : Option (List BinaryType)
deriving Repr

/-- Association-list lookup keyed by `Int`, modelling `HashMap::get`:
together with cons-insertion below, the most recent insert for a key wins,
exactly like `HashMap::insert` overwriting. -/
def alGet {α : Type} (m : List (Int × α)) (k : Int) : Option α :=
  (m.find? fun p => p.1 == k).map (·.2)

/-- Association-list insert modelling `HashMap::insert` (see `alGet`). -/
def alPut {α : Type} (m : List (Int × α)) (k : Int) (v : α) : List (Int × α) :=
  (k, v) :: m

/-- Context: the four registry maps built while decoding (binfmt.rs). -/
structure Ctx where
  libraries : List (Int × List Nat)
  strings : List (Int × List Nat)
  objects : List (Int × Val)
  classMeta : List (Int × ClassMeta)
deriving Repr

/-- Empty registry, `Context::default()`. -/
def emptyCtx : Ctx := ⟨[], [], [], []⟩

/-- Document: root id, root snapshot, finished registry (binfmt.rs). -/
structure Document where
  rootId : Option Int
  root : Option Val
  ctx : Ctx
deriving Repr

/-- Parse error, a structured mirror of the `format!` error strings of
binfmt.rs: each constructor corresponds to one error site and carries the
same data the string interpolates (byte offsets included). `outOfFuel` is
an artifact of the fuel-driven embedding of the parser's recursion and
corresponds to no Rust behaviour. -/
inductive PErr where
  | eof
  | invalidUtf8
  | varintTooLarge
  | expectedHeader (found : Nat) (off : Nat)
  | unknownRecord (tag : Nat) (off : Nat)
  | unknownBinaryType (code : Nat) (off : Nat)
  | unknownBinaryTypeInArray (code : Nat) (off : Nat)
  | unknownPrimitiveType (code : Nat) (off : Nat)
  | unknownMetadataId (id : Int) (off : Nat)
  | unexpectedRecord (tag : Nat) (off : Nat)
  | expectedStringLike (tag : Nat) (off : Nat)
  | unexpectedObjectLike (tag : Nat) (off : Nat)
  | expectedPrimitiveArray (tag : Nat) (off : Nat)
  | expectedStringArray (tag : Nat) (off : Nat)
  | expectedObjectArray (tag : Nat) (off : Nat)
  | unsupportedRank
  | nestedArrayElement
  | outOfFuel
deriving DecidableEq, Repr

/-- Parser::peek_u8. -/
def peekU8 (data : List Nat) (pos : Nat) : Except PErr Nat :=
  match data[pos]? with
  | some b => .ok b
  | none => .error .eof

/-- Parser::read_u8: one byte, advancing the position. -/
def readU8 (data : List Nat) (pos : Nat) : Except PErr (Nat × Nat) :=
  match data[pos]? with
  | some b => .ok (b, pos + 1)
  | none => .error .eof

/-- Parser::read_u16 (little-endian, bounds-checked). -/
def readU16 (data : List Nat) (pos : Nat) : Except PErr (Nat × Nat) :=
  if pos + 2 ≤ data.length then .ok (leVal ((data.drop pos).take 2), pos + 2)
  else .error .eof

/-- Parser::read_u32 (little-endian, bounds-checked). -/
def readU32 (data : List Nat) (pos : Nat) : Except PErr (Nat × Nat) :=
  if pos + 4 ≤ data.length then .ok (leVal ((data.drop pos).take 4), pos + 4)
  else .error .eof

/-- Parser::read_u64 (little-endian, bounds-checked). -/
def readU64 (data : List Nat) (pos : Nat) : Except PErr (Nat × Nat) :=
  if pos + 8 ≤ data.length then .ok (leVal ((data.drop pos).take 8), pos + 8)
  else .error .eof

/-- Parser::read_i8. -/
def readI8 (data : List Nat) (pos : Nat) : Except PErr (Int × Nat) := do
  let (b, p) ← readU8 data pos
  .ok (toI8 b, p)

/-- Parser::read_i16. -/
def readI16 (data : List Nat) (pos : Nat) : Except PErr (Int × Nat) := do
  let (b, p) ← readU16 data pos
  .ok (if b < 2 ^ 15 then (b : Int) else (b : Int) - 2 ^ 16, p)

/-- Parser::read_i32. -/
def readI32 (data : List Nat) (pos : Nat) : Except PErr (Int × Nat) := do
  let (b, p) ← readU32 data pos
  .ok (toI32 b, p)

/-- Parser::read_i64. -/
def readI64 (data : List Nat) (pos : Nat) : Except PErr (Int × Nat) := do
  let (b, p) ← readU64 data pos
  .ok (toI64 b, p)

/-- Parser::read_slice (bounds-checked slice of declared length). -/
def readSlice (data : List Nat) (pos len : Nat) : Except PErr (List Nat × Nat) :=
  if pos + len ≤ data.length then .ok ((data.drop pos).take len, pos + len)
  else .error .eof

/-- Loop body of Parser::read_7bit_len: accumulate 7-bit groups
little-endian; a shift past 28 bits is rejected as malformed. The last
argument is a structural recursion counter forced by the shift (it stands
for `5 - shift / 7`); the `shift + 7 > 28` check always fires before the
counter could reach zero, so the counter-zero case is dead code and the
function computes exactly the Rust loop. -/
def read7Go (data : List Nat) : Nat → Nat → Nat → Nat → Except PErr (Nat × Nat)
  | _, _, _, 0 => .error .varintTooLarge
  | pos, result, shift, k + 1 =>
    match data[pos]? with
    | none => .error .eof
    | some b =>
      let result' := result ||| ((b &&& 0x7F) <<< shift)
      if b &&& 0x80 == 0 then .ok (result', pos + 1)
      else if shift + 7 > 28 then .error .varintTooLarge
      else read7Go data (pos + 1) result' (shift + 7) k

/-- Parser::read_7bit_len. -/
def read7BitLen (data : List Nat) (pos : Nat) : Except PErr (Nat × Nat) :=
  read7Go data pos 0 0 5

/-- Parser::read_lp_string: 7-bit varint length, then that many bytes,
validated as UTF-8. -/
def readLpString (data : List Nat) (pos : Nat) : Except PErr (List Nat × Nat) := do
  let (len, p₁) ← read7BitLen data pos
  let (s, p₂) ← readSlice data p₁ len
  if utf8Valid s then .ok (s, p₂) else .error .invalidUtf8

/-- Parser::read_primitive_type: a primitive-kind code byte. -/
def readPrimitiveType (data : List Nat) (pos : Nat) : Except PErr (PrimType × Nat) := do
  let (code, p) ← readU8 data pos
  match code with
  | 1 => .ok (.boolean, p)
  | 2 => .ok (.byte, p)
  | 3 => .ok (.char, p)
  | 5 => .ok (.decimal, p)
  | 6 => .ok (.double, p)
  | 7 => .ok (.int16, p)
  | 8 => .ok (.int32, p)
  | 9 => .ok (.int64, p)
  | 10 => .ok (.sbyte, p)
  | 11 => .ok (.single, p)
  | 12 => .ok (.timeSpan, p)
  | 13 => .ok (.dateTime, p)
  | 14 => .ok (.uint16, p)
  | 15 => .ok (.uint32, p)
  | 16 => .ok (.uint64, p)
  | 17 => .ok (.nullT, p)
  | 18 => .ok (.stringT, p)
  | _ => .error (.unknownPrimitiveType code pos)

/-- Parser::read_inline_primitive: the untagged fixed-width value of a
declared primitive kind. -/
def readInlinePrimitive (p : PrimType) (data : List Nat) (pos : Nat) :
    Except PErr (Val × Nat) := do
  match p with
  | .boolean => do
    let (b, q) ← readU8 data pos
    .ok (.bool (b != 0), q)
  | .byte => do
    let (b, q) ← readU8 data pos
    .ok (.u8 b, q)
  | .sbyte => do
    let (b, q) ← readI8 data pos
    .ok (.i32 b, q)
  | .char => do
    let (b, q) ← readU16 data pos
    .ok (.u32 b, q)
  | .int16 => do
    let (b, q) ← readI16 data pos
    .ok (.i32 b, q)
  | .uint16 => do
    let (b, q) ← readU16 data pos
    .ok (.u32 b, q)
  | .int32 => do
    let (b, q) ← readI32 data pos
    .ok (.i32 b, q)
  | .uint32 => do
    let (b, q) ← readU32 data pos
    .ok (.u32 b, q)
  | .int64 => do
    let (b, q) ← readI64 data pos
    .ok (.i64 b, q)
  | .uint64 => do
    let (b, q) ← readU64 data pos
    .ok (.u64 b, q)
  | .single => do
    let (b, q) ← readU32 data pos
    .ok (.f32 b, q)
  | .double => do
    let (b, q) ← readU64 data pos
    .ok (.f64 b, q)
  | .timeSpan => do
    let (b, q) ← readI64 data pos
    .ok (.i64 b, q)
  | .dateTime => do
    let (b, q) ← readI64 data pos
    .ok (.i64 b, q)
  | .nullT => .ok (.null, pos)
  | .decimal => do
    let (s, q) ← readSlice data pos 16
    .ok (.bytes s, q)
  | .stringT => do
    let (s, q) ← readLpString data pos
    .ok (.str s, q)

/-- Parser::read_next_string_like: BinaryObjectString, MemberReference
(resolving to an already-registered string, else a raw reference), or
ObjectNull. -/
def readNextStringLike (data : List Nat) (pos : Nat) (ctx : Ctx) :
    Except PErr (Val × Nat × Ctx) :=
  match data[pos]? with
  | none => .error .eof
  | some t =>
    if t = 6 then do
      let (id, p₁) ← readI32 data (pos + 1)
      let (s, p₂) ← readLpString data p₁
      .ok (.str s, p₂, { ctx with strings := alPut ctx.strings id s })
    else if t = 9 then do
      let (idref, p₁) ← readI32 data (pos + 1)
      match alGet ctx.objects idref with
      | some (.str s) => .ok (.str s, p₁, ctx)
      | _ => .ok (.ref idref, p₁, ctx)
    else if t = 10 then .ok (.null, pos + 1, ctx)
    else .error (.expectedStringLike t pos)

/-- Element loop of Parser::read_array_single_primitive. -/
def readPrimLoop (p : PrimType) (data : List Nat) : Nat → Nat → Except PErr (List Val × Nat)
  | 0, pos => .ok ([], pos)
  | n + 1, pos => do
    let (v, p₁) ← readInlinePrimitive p data pos
    let (vs, p₂) ← readPrimLoop p data n p₁
    .ok (v :: vs, p₂)

/-- Parser::read_array_single_primitive (the record body after the tag). -/
def readArraySinglePrimitive (data : List Nat) (pos : Nat) :
    Except PErr (Int × Val × Nat) := do
  let (objectId, p₁) ← readI32 data pos
  let (len, p₂) ← readI32 data p₁
  let (prim, p₃) ← readPrimitiveType data p₂
  let (vals, p₄) ← readPrimLoop prim data (usizeOfI32 len) p₃
  .ok (objectId, .arr vals, p₄)

/-- Element loop of Parser::read_array_single_string. -/
def readStrLoop (data : List Nat) : Nat → Nat → Ctx → Except PErr (List Val × Nat × Ctx)
  | 0, pos, ctx => .ok ([], pos, ctx)
  | n + 1, pos, ctx => do
    let (v, p₁, c₁) ← readNextStringLike data pos ctx
    let (vs, p₂, c₂) ← readStrLoop data n p₁ c₁
    .ok (v :: vs, p₂, c₂)

/-- Parser::read_array_single_string (the record body after the tag). -/
def readArraySingleString (data : List Nat) (pos : Nat) (ctx : Ctx) :
    Except PErr (Int × Val × Nat × Ctx) := do
  let (objectId, p₁) ← readI32 data pos
  let (len, p₂) ← readI32 data p₁
  let (vals, p₃, c₁) ← readStrLoop data (usizeOfI32 len) p₂ ctx
  .ok (objectId, .arr vals, p₃, c₁)

/-- Member-name loop of the class-record readers. -/
def readLpStrings (data : List Nat) : Nat → Nat → Except PErr (List (List Nat) × Nat)
  | 0, pos => .ok ([], pos)
  | n + 1, pos => do
    let (s, p₁) ← readLpString data pos
    let (ss, p₂) ← readLpStrings data n p₁
    .ok (s :: ss, p₂)

/-- Raw binary-type byte loop of the WithTypes class-record readers. -/
def readRawBytes (data : List Nat) : Nat → Nat → Except PErr (List Nat × Nat)
  | 0, pos => .ok ([], pos)
  | n + 1, pos => do
    let (b, p₁) ← readU8 data pos
    let (bs, p₂) ← readRawBytes data n p₁
    .ok (b :: bs, p₂)

/-- Decode one raw binary-type code, consuming its auxiliary data (a type
name for SystemClass, a type name plus a library id for Class, a
primitive-kind byte for Primitive/PrimitiveArray). -/
def decodeOneBinType (t : Nat) (data : List Nat) (pos : Nat) :
    Except PErr (BinaryType × Nat) :=
  match t with
  | 0 => do
    let (p, q) ← readPrimitiveType data pos
    .ok (.primitive p, q)
  | 1 => .ok (.stringB, pos)
  | 2 => .ok (.object, pos)
  | 3 => do
    let (_, q) ← readLpString data pos
    .ok (.systemClass, q)
  | 4 => do
    let (_, q) ← readLpString data pos
    let (_, q₂) ← readI32 data q
    .ok (.classT, q₂)
  | 5 => .ok (.objectArray, pos)
  | 6 => .ok (.stringArray, pos)
  | 7 => do
    let (p, q) ← readPrimitiveType data pos
    .ok (.primitiveArray p, q)
  | other => .error (.unknownBinaryType other (pos - 1))

/-- Second loop of the WithTypes class-record readers: decode the saved
raw binary-type codes in order, consuming their auxiliary data. -/
def decodeBinTypes (data : List Nat) : List Nat → Nat → Except PErr (List BinaryType × Nat)
  | [], pos => .ok ([], pos)
  | t :: rest, pos => do
    let (bt, p₁) ← decodeOneBinType t data pos
    let (bts, p₂) ← decodeBinTypes data rest p₁
    .ok (bt :: bts, p₂)

/-
  The mutually recursive part of the parser. The Rust recursion is driven
  by input consumption; here every function takes a fuel argument,
  decremented at each entry, and `PErr.outOfFuel` (never returned by any
  run with sufficient fuel) marks exhaustion. `readMemberOfType` is the
  per-member dispatch on a declared BinaryType which the source inlines
  verbatim at three sites (read_class_with_members_and_types,
  read_system_class_with_members_and_types, read_class_with_id);
  `readMembersTyped`/`readMembersUntyped`/`readObjLoop`/`readBAElems` are
  the corresponding source-level `for`/`while` loops.
-/
mutual

def readMemberOfType (fuel : Nat) (bt : BinaryType) (data : List Nat) (pos : Nat) (ctx : Ctx) :
    Except PErr (Val × Nat × Ctx) :=
  match fuel with
  | 0 => .error .outOfFuel
  | f + 1 =>
    match bt with
    | .primitive p => do
      let (v, q) ← readInlinePrimitive p data pos
      .ok (v, q, ctx)
    | .stringB => readNextStringLike data pos ctx
    | .primitiveArray p => readNextPrimitiveArray f p data pos ctx
    | .object => readNextObjectLike f data pos ctx
    | .objectArray => readNextObjectArray f data pos ctx
    | .stringArray => readNextStringArray f data pos ctx
    | .systemClass => readNextObjectLike f data pos ctx
    | .classT => readNextObjectLike f data pos ctx
termination_by structural fuel

def readMembersTyped (fuel : Nat) (data : List Nat) (nts : List (List Nat × BinaryType))
    (pos : Nat) (ctx : Ctx) : Except PErr (List (List Nat × Val) × Nat × Ctx) :=
  match fuel with
  | 0 => .error .outOfFuel
  | f + 1 =>
    match nts with
    | [] => .ok ([], pos, ctx)
    | (name, bt) :: rest => do
      let (v, p₁, c₁) ← readMemberOfType f bt data pos ctx
      let (vs, p₂, c₂) ← readMembersTyped f data rest p₁ c₁
      .ok ((name, v) :: vs, p₂, c₂)
termination_by structural fuel

def readMembersUntyped (fuel : Nat) (data : List Nat) (names : List (List Nat))
    (pos : Nat) (ctx : Ctx) : Except PErr (List (List Nat × Val) × Nat × Ctx) :=
  match fuel with
  | 0 => .error .outOfFuel
  | f + 1 =>
    match names with
    | [] => .ok ([], pos, ctx)
    | name :: rest => do
      let (v, p₁, c₁) ← readNextAnyValue f data pos ctx
      let (vs, p₂, c₂) ← readMembersUntyped f data rest p₁ c₁
      .ok ((name, v) :: vs, p₂, c₂)
termination_by structural fuel

def readClassWithMembersAndTypes (fuel : Nat) (data : List Nat) (pos : Nat) (ctx : Ctx) :
    Except PErr (Int × Val × Nat × Ctx) :=
  match fuel with
  | 0 => .error .outOfFuel
  | f + 1 => do
    let (objectId, p₁) ← readI32 data pos
    let (className, p₂) ← readLpString data p₁
    let (cnt, p₃) ← readI32 data p₂
    let memberCount := usizeOfI32 cnt
    let (names, p₄) ← readLpStrings data memberCount p₃
    let (raw, p₅) ← readRawBytes data memberCount p₄
    let (types, p₆) ← decodeBinTypes data raw p₅
    let (libraryId, p₇) ← readI32 data p₆
    let (members, p₈, c₁) ← readMembersTyped f data (names.zip types) p₇ ctx
    let c₂ := { c₁ with
      classMeta := alPut c₁.classMeta objectId ⟨className, libraryId, names, some types⟩ }
    .ok (objectId, .obj className libraryId members, p₈, c₂)
termination_by structural fuel

def readSystemClassWithMembersAndTypes (fuel : Nat) (data : List Nat) (pos : Nat) (ctx : Ctx) :
    Except PErr (Int × Val × Nat × Ctx) :=
  match fuel with
  | 0 => .error .outOfFuel
  | f + 1 => do
    let (objectId, p₁) ← readI32 data pos
    let (className, p₂) ← readLpString data p₁
    let (cnt, p₃) ← readI32 data p₂
    let memberCount := usizeOfI32 cnt
    let (names, p₄) ← readLpStrings data memberCount p₃
    let (raw, p₅) ← readRawBytes data memberCount p₄
    let (types, p₆) ← decodeBinTypes data raw p₅
    let (members, p₇, c₁) ← readMembersTyped f data (names.zip types) p₆ ctx
    let c₂ := { c₁ with
      classMeta := alPut c₁.classMeta objectId ⟨className, 0, names, some types⟩ }
    .ok (objectId, .obj className 0 members, p₇, c₂)
termination_by structural fuel

def readClassWithMembers (fuel : Nat) (data : List Nat) (pos : Nat) (ctx : Ctx) :
    Except PErr (Int × Val × Nat × Ctx) :=
  match fuel with
  | 0 => .error .outOfFuel
  | f + 1 => do
    let (objectId, p₁) ← readI32 data pos
    let (className, p₂) ← readLpString data p₁
    let (cnt, p₃) ← readI32 data p₂
    let memberCount := usizeOfI32 cnt
    let (names, p₄) ← readLpStrings data memberCount p₃
    let (libraryId, p₅) ← readI32 data p₄
    let c₀ := { ctx with
      classMeta := alPut ctx.classMeta objectId ⟨className, libraryId, names, none⟩ }
    let (members, p₆, c₁) ← readMembersUntyped f data names p₅ c₀
    .ok (objectId, .obj className libraryId members, p₆, c₁)
termination_by structural fuel

def readSystemClassWithMembers (fuel : Nat) (data : List Nat) (pos : Nat) (ctx : Ctx) :
    Except PErr (Int × Val × Nat × Ctx) :=
  match fuel with
  | 0 => .error .outOfFuel
  | f + 1 => do
    let (objectId, p₁) ← readI32 data pos
    let (className, p₂) ← readLpString data p₁
    let (cnt, p₃) ← readI32 data p₂
    let memberCount := usizeOfI32 cnt
    let (names, p₄) ← readLpStrings data memberCount p₃
    let c₀ := { ctx with
      classMeta := alPut ctx.classMeta objectId ⟨className, 0, names, none⟩ }
    let (members, p₅, c₁) ← readMembersUntyped f data names p₄ c₀
    .ok (objectId, .obj className 0 members, p₅, c₁)
termination_by structural fuel

def readClassWithId (fuel : Nat) (data : List Nat) (pos : Nat) (ctx : Ctx) :
    Except PErr (Int × Val × Nat × Ctx) :=
  match fuel with
  | 0 => .error .outOfFuel
  | f + 1 => do
    let (objectId, p₁) ← readI32 data pos
    let (metadataId, p₂) ← readI32 data p₁
    match alGet ctx.classMeta metadataId with
    | none => .error (.unknownMetadataId metadataId (p₂ - 4))
    | some meta =>
      match meta.memberTypes with
      | some types => do
        let (members, p₃, c₁) ← readMembersTyped f data (meta.memberNames.zip types) p₂ ctx
        .ok (objectId, .obj meta.className meta.libraryId members, p₃, c₁)
      | none => do
        let (members, p₃, c₁) ← readMembersUntyped f data meta.memberNames p₂ ctx
        .ok (objectId, .obj meta.className meta.libraryId members, p₃, c₁)
termination_by structural fuel

def readNextObjectLike (fuel : Nat) (data : List Nat) (pos : Nat) (ctx : Ctx) :
    Except PErr (Val × Nat × Ctx) :=
  match fuel with
  | 0 => .error .outOfFuel
  | f + 1 =>
    match data[pos]? with
    | none => .error .eof
    | some t =>
      if t = 5 then do
        let (id, v, p₁, c₁) ← readClassWithMembersAndTypes f data (pos + 1) ctx
        .ok (v, p₁, { c₁ with objects := alPut c₁.objects id v })
      else if t = 4 then do
        let (id, v, p₁, c₁) ← readSystemClassWithMembersAndTypes f data (pos + 1) ctx
        .ok (v, p₁, { c₁ with objects := alPut c₁.objects id v })
      else if t = 3 then do
        let (id, v, p₁, c₁) ← readClassWithMembers f data (pos + 1) ctx
        .ok (v, p₁, { c₁ with objects := alPut c₁.objects id v })
      else if t = 2 then do
        let (id, v, p₁, c₁) ← readSystemClassWithMembers f data (pos + 1) ctx
        .ok (v, p₁, { c₁ with objects := alPut c₁.objects id v })
      else if t = 1 then do
        let (id, v, p₁, c₁) ← readClassWithId f data (pos + 1) ctx
        .ok (v, p₁, { c₁ with objects := alPut c₁.objects id v })
      else if t = 9 then do
        let (idref, p₁) ← readI32 data (pos + 1)
        .ok (.ref idref, p₁, ctx)
      else if t = 10 then .ok (.null, pos + 1, ctx)
      else .error (.unexpectedObjectLike t pos)
termination_by structural fuel

def readNextAnyValue (fuel : Nat) (data : List Nat) (pos : Nat) (ctx : Ctx) :
    Except PErr (Val × Nat × Ctx) :=
  match fuel with
  | 0 => .error .outOfFuel
  | f + 1 =>
    match data[pos]? with
    | none => .error .eof
    | some t =>
      if t = 8 then do
        let (prim, p₁) ← readPrimitiveType data (pos + 1)
        let (v, p₂) ← readInlinePrimitive prim data p₁
        .ok (v, p₂, ctx)
      else if t = 6 then readNextStringLike data pos ctx
      else if t = 5 ∨ t = 4 ∨ t = 3 ∨ t = 2 ∨ t = 1 then readNextObjectLike f data pos ctx
      else if t = 15 then do
        let (id, v, p₁) ← readArraySinglePrimitive data (pos + 1)
        .ok (v, p₁, { ctx with objects := alPut ctx.objects id v })
      else if t = 17 then do
        let (id, v, p₁, c₁) ← readArraySingleString data (pos + 1) ctx
        .ok (v, p₁, { c₁ with objects := alPut c₁.objects id v })
      else if t = 16 then do
        let (id, v, p₁, c₁) ← readArraySingleObject f data (pos + 1) ctx
        .ok (v, p₁, { c₁ with objects := alPut c₁.objects id v })
      else if t = 9 then do
        let (idref, p₁) ← readI32 data (pos + 1)
        .ok (.ref idref, p₁, ctx)
      else if t = 10 then .ok (.null, pos + 1, ctx)
      else if t = 7 then do
        let (_, v, p₁, c₁) ← readBinaryArray f data (pos + 1) ctx
        .ok (v, p₁, c₁)
      else .error (.unexpectedRecord t pos)
termination_by structural fuel

def readNextPrimitiveArray (fuel : Nat) (_p : PrimType) (data : List Nat) (pos : Nat) (ctx : Ctx) :
    Except PErr (Val × Nat × Ctx) :=
  match fuel with
  | 0 => .error .outOfFuel
  | f + 1 =>
    match data[pos]? with
    | none => .error .eof
    | some t =>
      if t = 15 then do
        let (id, v, p₁) ← readArraySinglePrimitive data (pos + 1)
        .ok (v, p₁, { ctx with objects := alPut ctx.objects id v })
      else if t = 7 then do
        let (id, v, p₁, c₁) ← readBinaryArray f data (pos + 1) ctx
        .ok (v, p₁, { c₁ with objects := alPut c₁.objects id v })
      else if t = 9 then do
        let (idref, p₁) ← readI32 data (pos + 1)
        .ok (.ref idref, p₁, ctx)
      else if t = 10 then .ok (.null, pos + 1, ctx)
      else .error (.expectedPrimitiveArray t pos)
termination_by structural fuel

def readNextStringArray (fuel : Nat) (data : List Nat) (pos : Nat) (ctx : Ctx) :
    Except PErr (Val × Nat × Ctx) :=
  match fuel with
  | 0 => .error .outOfFuel
  | f + 1 =>
    match data[pos]? with
    | none => .error .eof
    | some t =>
      if t = 17 then do
        let (id, v, p₁, c₁) ← readArraySingleString data (pos + 1) ctx
        .ok (v, p₁, { c₁ with objects := alPut c₁.objects id v })
      else if t = 7 then do
        let (id, v, p₁, c₁) ← readBinaryArray f data (pos + 1) ctx
        .ok (v, p₁, { c₁ with objects := alPut c₁.objects id v })
      else .error (.expectedStringArray t pos)
termination_by structural fuel

def readNextObjectArray (fuel : Nat) (data : List Nat) (pos : Nat) (ctx : Ctx) :
    Except PErr (Val × Nat × Ctx) :=
  match fuel with
  | 0 => .error .outOfFuel
  | f + 1 =>
    match data[pos]? with
    | none => .error .eof
    | some t =>
      if t = 16 then do
        let (id, v, p₁, c₁) ← readArraySingleObject f data (pos + 1) ctx
        .ok (v, p₁, { c₁ with objects := alPut c₁.objects id v })
      else if t = 7 then do
        let (id, v, p₁, c₁) ← readBinaryArray f data (pos + 1) ctx
        .ok (v, p₁, { c₁ with objects := alPut c₁.objects id v })
      else .error (.expectedObjectArray t pos)
termination_by structural fuel

def readObjLoop (fuel : Nat) (data : List Nat) (n : Nat) (pos : Nat) (ctx : Ctx) :
    Except PErr (List Val × Nat × Ctx) :=
  match fuel with
  | 0 => .error .outOfFuel
  | f + 1 =>
    match n with
    | 0 => .ok ([], pos, ctx)
    | m + 1 => do
      let (v, p₁, c₁) ← readNextObjectLike f data pos ctx
      let (vs, p₂, c₂) ← readObjLoop f data m p₁ c₁
      .ok (v :: vs, p₂, c₂)
termination_by structural fuel

def readArraySingleObject (fuel : Nat) (data : List Nat) (pos : Nat) (ctx : Ctx) :
    Except PErr (Int × Val × Nat × Ctx) :=
  match fuel with
  | 0 => .error .outOfFuel
  | f + 1 => do
    let (objectId, p₁) ← readI32 data pos
    let (len, p₂) ← readI32 data p₁
    let (vals, p₃, c₁) ← readObjLoop f data (usizeOfI32 len) p₂ ctx
    .ok (objectId, .arr vals, p₃, c₁)
termination_by structural fuel

def readBAElems (fuel : Nat) (data : List Nat) (len : Nat) (out : List Val)
    (pos : Nat) (ctx : Ctx) : Except PErr (List Val × Nat × Ctx) :=
  match fuel with
  | 0 => .error .outOfFuel
  | f + 1 =>
    if out.length < len then
      match data[pos]? with
      | none => .error .eof
      | some t =>
        if t = 10 then readBAElems f data len (out ++ [.null]) (pos + 1) ctx
        else if t = 13 then do
          let (cnt, p₁) ← readU8 data (pos + 1)
          readBAElems f data len (out ++ List.replicate cnt .null) p₁ ctx
        else if t = 14 then do
          let (cnt, p₁) ← readI32 data (pos + 1)
          readBAElems f data len (out ++ List.replicate (usizeOfI32 cnt) .null) p₁ ctx
        else if t = 9 then do
          let (idref, p₁) ← readI32 data (pos + 1)
          readBAElems f data len (out ++ [.ref idref]) p₁ ctx
        else if t = 6 then do
          let (v, p₁, c₁) ← readNextStringLike data pos ctx
          readBAElems f data len (out ++ [v]) p₁ c₁
        else do
          let (v, p₁, c₁) ← readNextObjectLike f data pos ctx
          readBAElems f data len (out ++ [v]) p₁ c₁
    else .ok (out, pos, ctx)
termination_by structural fuel

def readBinaryArray (fuel : Nat) (data : List Nat) (pos : Nat) (ctx : Ctx) :
    Except PErr (Int × Val × Nat × Ctx) :=
  match fuel with
  | 0 => .error .outOfFuel
  | f + 1 => do
    let (objectId, p₁) ← readI32 data pos
    let (arrayType, p₂) ← readU8 data p₁
    let (rank, p₃) ← readI32 data p₂
    if usizeOfI32 rank ≠ 1 then .error .unsupportedRank
    else do
      let (len, p₄) ← readI32 data p₃
      let p₅ ← (if 3 ≤ arrayType ∧ arrayType ≤ 5 then do
          let (_lb, q) ← readI32 data p₄
          Except.ok q
        else Except.ok p₄)
      let (elemCode, p₆) ← readU8 data p₅
      let et ← (match elemCode with
        | 0 => do
          let (p', q) ← readPrimitiveType data p₆
          Except.ok (BinaryType.primitive p', q)
        | 1 => Except.ok (BinaryType.stringB, p₆)
        | 2 => Except.ok (BinaryType.object, p₆)
        | 3 => do
          let (_, q) ← readLpString data p₆
          Except.ok (BinaryType.systemClass, q)
        | 4 => do
          let (_, q) ← readLpString data p₆
          let (_, q₂) ← readI32 data q
          Except.ok (BinaryType.classT, q₂)
        | 5 => Except.ok (BinaryType.objectArray, p₆)
        | 6 => Except.ok (BinaryType.stringArray, p₆)
        | 7 => do
          let (p', q) ← readPrimitiveType data p₆
          Except.ok (BinaryType.primitiveArray p', q)
        | other => Except.error (PErr.unknownBinaryTypeInArray other (p₆ - 1)))
      let (elemType, p₇) := et
      let lenN := usizeOfI32 len
      match elemType with
      | .primitive p' => do
        let (vals, p₈) ← readPrimLoop p' data lenN p₇
        .ok (objectId, .arr vals, p₈, ctx)
      | .stringB => do
        let (vals, p₈, c₁) ← readStrLoop data lenN p₇ ctx
        .ok (objectId, .arr vals, p₈, c₁)
      | .object => do
        let (vals, p₈, c₁) ← readBAElems f data lenN [] p₇ ctx
        .ok (objectId, .arr vals, p₈, c₁)
      | .systemClass => do
        let (vals, p₈, c₁) ← readBAElems f data lenN [] p₇ ctx
        .ok (objectId, .arr vals, p₈, c₁)
      | .classT => do
        let (vals, p₈, c₁) ← readBAElems f data lenN [] p₇ ctx
        .ok (objectId, .arr vals, p₈, c₁)
      | _ => .error .nestedArrayElement
termination_by structural fuel

def parseLoop (fuel : Nat) (data : List Nat) (pos : Nat) (ctx : Ctx)
    (rootId : Option Int) (snap : Option Val) : Except PErr (Document × Nat) :=
  match fuel with
  | 0 => .error .outOfFuel
  | f + 1 => do
    let (t, p₁) ← readU8 data pos
    if t = 12 then do
      let (libId, p₂) ← readI32 data p₁
      let (name, p₃) ← readLpString data p₂
      parseLoop f data p₃ { ctx with libraries := alPut ctx.libraries libId name } rootId snap
    else if t = 5 then do
      let (id, v, p₂, c₁) ← readClassWithMembersAndTypes f data p₁ ctx
      parseLoop f data p₂ { c₁ with objects := alPut c₁.objects id v }
        (if rootId.isNone then some id else rootId) (if snap.isNone then some v else snap)
    else if t = 4 then do
      let (id, v, p₂, c₁) ← readSystemClassWithMembersAndTypes f data p₁ ctx
      parseLoop f data p₂ { c₁ with objects := alPut c₁.objects id v }
        (if rootId.isNone then some id else rootId) (if snap.isNone then some v else snap)
    else if t = 3 then do
      let (id, v, p₂, c₁) ← readClassWithMembers f data p₁ ctx
      parseLoop f data p₂ { c₁ with objects := alPut c₁.objects id v }
        (if rootId.isNone then some id else rootId) (if snap.isNone then some v else snap)
    else if t = 2 then do
      let (id, v, p₂, c₁) ← readSystemClassWithMembers f data p₁ ctx
      parseLoop f data p₂ { c₁ with objects := alPut c₁.objects id v }
        (if rootId.isNone then some id else rootId) (if snap.isNone then some v else snap)
    else if t = 6 then do
      let (id, p₂) ← readI32 data p₁
      let (s, p₃) ← readLpString data p₂
      parseLoop f data p₃
        { ctx with strings := alPut ctx.strings id s, objects := alPut ctx.objects id (.str s) }
        rootId snap
    else if t = 8 then do
      let (prim, p₂) ← readPrimitiveType data p₁
      let (_v, p₃) ← readInlinePrimitive prim data p₂
      parseLoop f data p₃ ctx rootId snap
    else if t = 9 then do
      let (_idref, p₂) ← readI32 data p₁
      parseLoop f data p₂ ctx rootId snap
    else if t = 10 then parseLoop f data p₁ ctx rootId snap
    else if t = 15 then do
      let (id, v, p₂) ← readArraySinglePrimitive data p₁
      parseLoop f data p₂ { ctx with objects := alPut ctx.objects id v } rootId snap
    else if t = 17 then do
      let (id, v, p₂, c₁) ← readArraySingleString data p₁ ctx
      parseLoop f data p₂ { c₁ with objects := alPut c₁.objects id v } rootId snap
    else if t = 16 then do
      let (id, v, p₂, c₁) ← readArraySingleObject f data p₁ ctx
      parseLoop f data p₂ { c₁ with objects := alPut c₁.objects id v } rootId snap
    else if t = 1 then do
      let (id, v, p₂, c₁) ← readClassWithId f data p₁ ctx
      parseLoop f data p₂ { c₁ with objects := alPut c₁.objects id v }
        (if rootId.isNone then some id else rootId) (if snap.isNone then some v else snap)
    else if t = 7 then do
      let (id, v, p₂, c₁) ← readBinaryArray f data p₁ ctx
      parseLoop f data p₂ { c₁ with objects := alPut c₁.objects id v } rootId snap
    else if t = 11 then .ok (⟨rootId, snap, ctx⟩, p₁)
    else .error (.unknownRecord t (p₁ - 1))

termination_by structural fuel

end

/-- Parser::parse_stream: header tag and four header integers, then the
record dispatch loop until MessageEnd. -/
def parseStream (fuel : Nat) (data : List Nat) : Except PErr (Document × Nat) := do
  let (t, p₁) ← readU8 data 0
  if t ≠ 0 then .error (.expectedHeader t (p₁ - 1))
  else do
    let (_rootId, p₂) ← readI32 data p₁
    let (_headerId, p₃) ← readI32 data p₂
    let (_major, p₄) ← readI32 data p₃
    let (_minor, p₅) ← readI32 data p₄
    parseLoop fuel data p₅ emptyCtx none none

/-- Document::root_class_name. -/
def Document.rootClassName (d : Document) : Option (List Nat) :=
  match d.root with
  | some (.obj cn _ _) => some cn
  | _ => none

/-- Document::get_object. -/
def Document.getObject (d : Document) (id : Int) : Option Val := alGet d.ctx.objects id

/-
  Generic JSON tree: the model of serde_json::Value as consumed by the
  Writer (binfmt_write.rs) and produced by the Bridge (edit.rs). Strings
  are their UTF-8 byte lists. A serde_json::Number is one of: an i64-
  representable integer (NegInt, or PosInt at most i64::MAX — exactly the
  values with is_i64), a PosInt above i64::MAX (is_u64 only), or an f64
  carried as its bit pattern.
-/

/-- JNum: the three serde_json::Number variants (see file comment). -/
inductive JNum where
  | int (i : Int)
  | uint (u : Nat)
  | float (bits : Nat)
deriving DecidableEq, Repr

/-- J: the model of serde_json::Value. Object fields are an ordered
association list with distinct keys (serde maps have unique keys). -/
inductive J where
  | null
  | bool (b : Bool)
  | num (n : JNum)
  | str (s : List Nat)
  | arr (elems : List J)
  | obj (fields : List (List Nat × J))
deriving Repr

/-- Exact conversion of a positive integer to its nearest f64 bit pattern
(round to nearest, ties to even): the semantics of `as f64` on integers.
Only needed to give `as_f64` its true meaning; every live codec path uses
it on already-float numbers where it is the identity on bits. -/
def f64BitsOfNat (m : Nat) : Nat :=
  if m = 0 then 0
  else
    let e := Nat.log2 m
    if e ≤ 52 then (e + 1023) * 2 ^ 52 + (m - 2 ^ e) * 2 ^ (52 - e)
    else
      let sh := e - 52
      let q := m / 2 ^ sh
      let r := m % 2 ^ sh
      let half := 2 ^ (sh - 1)
      let q₁ := if half < r ∨ (r = half ∧ q % 2 = 1) then q + 1 else q
      if q₁ = 2 ^ 53 then (e + 1 + 1023) * 2 ^ 52
      else (e + 1023) * 2 ^ 52 + (q₁ - 2 ^ 52)

/-- Conversion of an integer to its f64 bit pattern (`i as f64`). -/
def f64BitsOfInt (i : Int) : Nat :=
  if 0 ≤ i then f64BitsOfNat i.toNat else 2 ^ 63 + f64BitsOfNat (-i).toNat

/-- serde_json::Number::as_i64. -/
def JNum.asI64 : JNum → Option Int
  | .int i => some i
  | .uint _ => none
  | .float _ => none

/-- serde_json::Number::as_u64. -/
def JNum.asU64 : JNum → Option Nat
  | .int i => if 0 ≤ i then some i.toNat else none
  | .uint u => some u
  | .float _ => none

/-- serde_json::Number::as_f64 (total on numbers), as a bit pattern. -/
def JNum.asF64Bits : JNum → Nat
  | .int i => f64BitsOfInt i
  | .uint u => f64BitsOfNat u
  | .float bits => bits

/-- serde_json::Value::as_i64. -/
def J.asI64 : J → Option Int
  | .num n => n.asI64
  | _ => none

/-- serde_json::Value::as_u64. -/
def J.asU64 : J → Option Nat
  | .num n => n.asU64
  | _ => none

/-- serde_json::Value::as_f64, as a bit pattern. -/
def J.asF64Bits : J → Option Nat
  | .num n => some n.asF64Bits
  | _ => none

/-- serde_json::Value::as_str. -/
def J.asStr : J → Option (List Nat)
  | .str s => some s
  | _ => none

/-- serde_json::Value::is_string. -/
def J.isString : J → Bool
  | .str _ => true
  | _ => false

/-- serde_json::Map::get. -/
def jGet (fields : List (List Nat × J)) (k : List Nat) : Option J :=
  (fields.find? fun p => p.1 == k).map (·.2)

/-- The Writer's designated byte-summary convention value:
`map.get("$type").and_then(as_str) == Some("bytes")`. -/
def isBytesMarker (fields : List (List Nat × J)) : Bool :=
  ((jGet fields (strBytes ("$type"))).bind J.asStr) == some (strBytes ("bytes"))

/-- Class name of an object value:
`map.get("$class").and_then(as_str).unwrap_or("Object")`. -/
def classNameOf (fields : List (List Nat × J)) : List Nat :=
  match (jGet fields (strBytes ("$class"))).bind J.asStr with
  | some s => s
  | none => strBytes ("Object")

/-- Writer error, a structured mirror of the error strings of
binfmt_write.rs. `outOfFuelW` is an artifact of the fuel-driven
embedding of the writer's recursion. -/
inductive WErr where
  | rootMustBeObject
  | missingRootField
  | stringArrayElemNotString
  | byteArrayElemMustBeU64
  | nonNumberInByteArray
  | intArrayElemMustBeI64
  | int64ArrayElemMustBeI64
  | floatArrayElemMustBeF64
  | arrayElementNotObject
  | outOfFuelW
deriving DecidableEq, Repr

/-- Writer bookkeeping: the two independent id counters (object ids from
1, string ids from 100). The output buffer is not carried: every writer
function returns the byte run it appends to `self.out`. -/
structure WState where
  nextId : Int
  nextStrId : Int
deriving Repr

/-- Writer::write_7 (7-bit varint encoder). The first argument of the
helper is a structural recursion counter; `v + 1` always suffices since
the value strictly shrinks by division. -/
def write7Go : Nat → Nat → List Nat
  | 0, _ => []
  | f + 1, v => if 0x80 ≤ v then (v % 128 + 128) :: write7Go f (v / 128) else [v]

/-- Writer::write_7 entry point. -/
def write7 (v : Nat) : List Nat := write7Go (v + 1) v

/-- Writer::write_lp_str. -/
def writeLpStr (s : List Nat) : List Nat := write7 s.length ++ s

/-- Writer::write_i32 byte run. -/
def writeI32 (v : Int) : List Nat := i32LE v

/-- Writer::write_i64 byte run. -/
def writeI64 (v : Int) : List Nat := i64LE v

/-- Writer::write_u64 byte run. -/
def writeU64 (v : Nat) : List Nat := natToLE 8 v

/-- Writer::write_f64 byte run (bit pattern in, little-endian out). -/
def writeF64bits (bits : Nat) : List Nat := natToLE 8 bits

/-- Writer::write_prim_type code byte. -/
def writePrimTypeByte (p : PrimType) : Nat :=
  match p with
  | .boolean => 1
  | .byte => 2
  | .char => 3
  | .decimal => 5
  | .double => 6
  | .int16 => 7
  | .int32 => 8
  | .int64 => 9
  | .sbyte => 10
  | .single => 11
  | .timeSpan => 12
  | .dateTime => 13
  | .uint16 => 14
  | .uint32 => 15
  | .uint64 => 16
  | .nullT => 17
  | .stringT => 18

/-- Scalar kind of one array element inside
Writer::infer_primitive_array_type (`None` forces the non-primitive
fallback). -/
def elemKind : J → Option PrimType
  | .bool _ => some .boolean
  | .num (.int _) => some .int64
  | .num (.uint _) => some .uint64
  | .num (.float _) => some .double
  | .str _ => none
  | .null => some .nullT
  | .arr _ => none
  | .obj _ => none

/-- Kind-agreement loop of Writer::infer_primitive_array_type: `none`
models the early `return None` on a mismatch or non-primitive element;
otherwise the accumulated kind is returned. -/
def inferLoop : List J → Option PrimType → Option (Option PrimType)
  | [], kind => some kind
  | v :: rest, kind =>
    match elemKind v with
    | none => none
    | some k =>
      match kind with
      | some prev => if prev ≠ k then none else inferLoop rest (some prev)
      | none => inferLoop rest (some k)

/-- All-elements-fit-a-byte test of Writer::infer_primitive_array_type. -/
def allByte (a : List J) : Bool :=
  a.all fun v =>
    match v.asU64 with
    | some u => decide (u ≤ 255)
    | none =>
      match v.asI64 with
      | some i => decide (0 ≤ i) && decide (i ≤ 255)
      | none => false

/-- One element fits the signed 32-bit range (the Int64 → Int32 downgrade
test). -/
def fitsI32 (v : J) : Bool :=
  match v.asI64 with
  | some i => decide (-(2 ^ 31 : Int) ≤ i) && decide (i ≤ 2 ^ 31 - 1)
  | none => false

/-- Writer::infer_primitive_array_type. -/
def inferPrimitiveArrayType (a : List J) : Option PrimType :=
  if a.isEmpty then some .int32
  else
    match inferLoop a none with
    | none => none
    | some kind =>
      if allByte a then some .byte
      else if kind == some PrimType.int64 && a.all fitsI32 then some .int32
      else kind

/-- Writer::is_string_array. -/
def isStringArray (a : List J) : Bool := !a.isEmpty && a.all J.isString

/-- Writer::bin_type_code. -/
def binTypeCode (v : J) : Nat :=
  match v with
  | .null => 0
  | .bool _ => 0
  | .num _ => 0
  | .str _ => 1
  | .arr a =>
    if isStringArray a then 6
    else if (inferPrimitiveArrayType a).isSome then 7
    else 5
  | .obj fields => if isBytesMarker fields then 7 else 2

/-- Writer::maybe_prim_type. -/
def maybePrimType (v : J) : Option PrimType :=
  match v with
  | .null => some .nullT
  | .bool _ => some .boolean
  | .num (.int _) => some .int64
  | .num (.uint _) => some .uint64
  | .num (.float _) => some .double
  | .str _ => none
  | .arr a => inferPrimitiveArrayType a
  | .obj fields => if isBytesMarker fields then some .byte else none

/-- Auxiliary primitive-kind byte emitted after the type-code list for
members whose `maybe_prim_type` is Some (the writer's extra-info loop). -/
def extraTypeBytes (v : J) : List Nat :=
  match maybePrimType v with
  | some pt => [writePrimTypeByte pt]
  | none => []

/-- Writer::write_string_obj (BinaryObjectString with a fresh string id). -/
def writeStringObj (s : List Nat) (st : WState) : List Nat × WState :=
  ([6] ++ writeI32 st.nextStrId ++ writeLpStr s, { st with nextStrId := st.nextStrId + 1 })

/-- Writer::write_primitive_array_u8 (ArraySinglePrimitive of Byte). -/
def writePrimitiveArrayU8 (bytes : List Nat) (st : WState) : List Nat × WState :=
  ([15] ++ writeI32 st.nextId ++ writeI32 (bytes.length : Int) ++ [writePrimTypeByte .byte] ++ bytes,
   { st with nextId := st.nextId + 1 })

/-- Byte-cast element loop of the Writer's byte-array path
(`(x & 0xFF) as u8` per element, errors mirroring the source). -/
def byteElems : List J → Except WErr (List Nat)
  | [] => .ok []
  | v :: rest =>
    match v with
    | .num n =>
      match n.asU64 with
      | some x => do
        let bs ← byteElems rest
        .ok (x % 256 :: bs)
      | none => .error .byteArrayElemMustBeU64
    | _ => .error .nonNumberInByteArray

/-- Element loop of the Writer's Int32 array path (`i as i32` wraps). -/
def int32Elems : List J → Except WErr (List Nat)
  | [] => .ok []
  | v :: rest =>
    match v.asI64 with
    | some i => do
      let bs ← int32Elems rest
      .ok (writeI32 i ++ bs)
    | none => .error .intArrayElemMustBeI64

/-- Element loop of the Writer's Int64 array path. -/
def int64Elems : List J → Except WErr (List Nat)
  | [] => .ok []
  | v :: rest =>
    match v.asI64 with
    | some i => do
      let bs ← int64Elems rest
      .ok (writeI64 i ++ bs)
    | none => .error .int64ArrayElemMustBeI64

/-- Element loop of the Writer's Double array path. -/
def doubleElems : List J → Except WErr (List Nat)
  | [] => .ok []
  | v :: rest =>
    match v.asF64Bits with
    | some bits => do
      let bs ← doubleElems rest
      .ok (writeF64bits bits ++ bs)
    | none => .error .floatArrayElemMustBeF64

/-- Element loop of the Writer's string-array path. -/
def writeStringArrayElems : List J → WState → Except WErr (List Nat × WState)
  | [], st => .ok ([], st)
  | v :: rest, st =>
    match v with
    | .str s =>
      let (bs, st₁) := writeStringObj s st
      do
        let (bs₂, st₂) ← writeStringArrayElems rest st₁
        .ok (bs ++ bs₂, st₂)
    | _ => .error .stringArrayElemNotString

/-- Byte-wise lexicographic order on keys: Rust `str::cmp` is the
lexicographic order of UTF-8 bytes. -/
def bytesLe : List Nat → List Nat → Bool
  | [], _ => true
  | _ :: _, [] => false
  | x :: xs, y :: ys => if x < y then true else if y < x then false else bytesLe xs ys

/-- Ordered insertion for `sortPairs`. -/
def insertPair (p : List Nat × J) : List (List Nat × J) → List (List Nat × J)
  | [] => [p]
  | q :: rest => if bytesLe p.1 q.1 then p :: q :: rest else q :: insertPair p rest

/-- The Writer's `pairs.sort_by(|a, b| a.0.cmp(b.0))` (keys are distinct,
so any sort by key computes the same list). -/
def sortPairs : List (List Nat × J) → List (List Nat × J)
  | [] => []
  | p :: rest => insertPair p (sortPairs rest)

/-- The Writer's member filter dropping the special `$class` key. -/
def filterClass (fields : List (List Nat × J)) : List (List Nat × J) :=
  fields.filter fun p => !(p.1 == strBytes ("$class"))

/-
  The mutually recursive part of the Writer, fuel-driven like the parser
  (`WErr.outOfFuelW` marks exhaustion and corresponds to no Rust
  behaviour). Each function returns the byte run the source appends to
  `self.out`, threading the id counters.
-/
mutual

def writeMemberValue (fuel : Nat) (v : J) (st : WState) : Except WErr (List Nat × WState) :=
  match fuel with
  | 0 => .error .outOfFuelW
  | f + 1 =>
    match v with
    | .null => .ok ([], st)
    | .bool b => .ok ([if b then 1 else 0], st)
    | .num (.int i) => .ok (writeI64 i, st)
    | .num (.uint u) => .ok (writeU64 u, st)
    | .num (.float bits) => .ok (writeF64bits bits, st)
    | .str s => .ok (writeStringObj s st)
    | .arr a => writeArray f a st
    | .obj fields =>
      if isBytesMarker fields then
        let len :=
          match (jGet fields (strBytes ("len"))).bind J.asU64 with
          | some u => u
          | none => 0
        .ok (writePrimitiveArrayU8 (List.replicate len 0) st)
      else writeObject f fields (classNameOf fields) st
termination_by structural fuel

def writeArray (fuel : Nat) (a : List J) (st : WState) : Except WErr (List Nat × WState) :=
  match fuel with
  | 0 => .error .outOfFuelW
  | f + 1 =>
    if isStringArray a then do
      let (ebs, st₂) ← writeStringArrayElems a { st with nextId := st.nextId + 1 }
      .ok ([17] ++ writeI32 st.nextId ++ writeI32 (a.length : Int) ++ ebs, st₂)
    else
      match inferPrimitiveArrayType a with
      | some .byte => do
        let bytes ← byteElems a
        .ok (writePrimitiveArrayU8 bytes st)
      | some .int32 => do
        let ebs ← int32Elems a
        .ok ([15] ++ writeI32 st.nextId ++ writeI32 (a.length : Int) ++
              [writePrimTypeByte .int32] ++ ebs,
          { st with nextId := st.nextId + 1 })
      | some .int64 => do
        let ebs ← int64Elems a
        .ok ([15] ++ writeI32 st.nextId ++ writeI32 (a.length : Int) ++
              [writePrimTypeByte .int64] ++ ebs,
          { st with nextId := st.nextId + 1 })
      | some .double => do
        let ebs ← doubleElems a
        .ok ([15] ++ writeI32 st.nextId ++ writeI32 (a.length : Int) ++
              [writePrimTypeByte .double] ++ ebs,
          { st with nextId := st.nextId + 1 })
      | some _ => writeObjectArray f a st
      | none => writeObjectArray f a st
termination_by structural fuel

def writeObjectArray (fuel : Nat) (a : List J) (st : WState) : Except WErr (List Nat × WState) :=
  match fuel with
  | 0 => .error .outOfFuelW
  | f + 1 => do
    let (ebs, st₂) ← writeObjArrayElems f a { st with nextId := st.nextId + 1 }
    .ok ([16] ++ writeI32 st.nextId ++ writeI32 (a.length : Int) ++ ebs, st₂)
termination_by structural fuel

def writeObjArrayElems (fuel : Nat) (a : List J) (st : WState) :
    Except WErr (List Nat × WState) :=
  match fuel with
  | 0 => .error .outOfFuelW
  | f + 1 =>
    match a with
    | [] => .ok ([], st)
    | v :: rest =>
      match v with
      | .obj fields => do
        let (bs, st₁) ← writeObject f fields (classNameOf fields) st
        let (bs₂, st₂) ← writeObjArrayElems f rest st₁
        .ok (bs ++ bs₂, st₂)
      | _ => .error .arrayElementNotObject
termination_by structural fuel

def writeObject (fuel : Nat) (fields : List (List Nat × J)) (className : List Nat)
    (st : WState) : Except WErr (List Nat × WState) :=
  match fuel with
  | 0 => .error .outOfFuelW
  | f + 1 => do
    let pairs := sortPairs (filterClass fields)
    let (vbs, st₂) ← writeMembersVals f pairs { st with nextId := st.nextId + 1 }
    .ok ([5] ++ writeI32 st.nextId ++ writeLpStr className ++
          writeI32 (pairs.length : Int) ++
          (pairs.map fun p => writeLpStr p.1).flatten ++
          (pairs.map fun p => binTypeCode p.2) ++
          (pairs.map fun p => extraTypeBytes p.2).flatten ++
          writeI32 2 ++ vbs,
      st₂)
termination_by structural fuel

def writeMembersVals (fuel : Nat) (pairs : List (List Nat × J)) (st : WState) :
    Except WErr (List Nat × WState) :=
  match fuel with
  | 0 => .error .outOfFuelW
  | f + 1 =>
    match pairs with
    | [] => .ok ([], st)
    | (_, v) :: rest => do
      let (bs, st₁) ← writeMemberValue f v st
      let (bs₂, st₂) ← writeMembersVals f rest st₁
      .ok (bs ++ bs₂, st₂)

termination_by structural fuel

end

/-- Writer::write_root: one self-describing ClassWithMembersAndTypes
record; an object root keeps its own members, an array root becomes the
single member "items", any other root the single member "value". -/
def writeRoot (fuel : Nat) (className : List Nat) (v : J) (st : WState) :
    Except WErr (List Nat × WState) :=
  let head := [5] ++ writeI32 st.nextId ++ writeLpStr className
  let st₁ : WState := { st with nextId := st.nextId + 1 }
  match v with
  | .obj fields => do
    let pairs := sortPairs (filterClass fields)
    let (vbs, st₂) ← writeMembersVals fuel pairs st₁
    .ok (head ++ writeI32 (pairs.length : Int) ++
          (pairs.map fun p => writeLpStr p.1).flatten ++
          (pairs.map fun p => binTypeCode p.2) ++
          (pairs.map fun p => extraTypeBytes p.2).flatten ++
          writeI32 2 ++ vbs,
      st₂)
  | .arr a => do
    let tcode : List Nat :=
      if isStringArray a then [6]
      else
        match inferPrimitiveArrayType a with
        | some pt => [7, writePrimTypeByte pt]
        | none => [5]
    let (abs, st₂) ← writeArray fuel a st₁
    .ok (head ++ writeI32 1 ++ writeLpStr (strBytes ("items")) ++ tcode ++
          writeI32 2 ++ abs,
      st₂)
  | _ => do
    let tcode := [binTypeCode v] ++ extraTypeBytes v
    let (vbs, st₂) ← writeMemberValue fuel v st₁
    .ok (head ++ writeI32 1 ++ writeLpStr (strBytes ("value")) ++ tcode ++
          writeI32 2 ++ vbs,
      st₂)

/-- The first library record emitted by write_binfmt_from_json. -/
def libGameName : List Nat :=
  strBytes ("Game, Version=0.0.0.0, Culture=neutral, PublicKeyToken=null")

/-- The second library record emitted by write_binfmt_from_json. -/
def libMscorlibName : List Nat :=
  strBytes ("mscorlib, Version=4.0.0.0, Culture=neutral, PublicKeyToken=b77a5c561934e089")

/-- write_binfmt_from_json: header, two BinaryLibrary records, the root
record, MessageEnd. -/
def writeBinfmtFromJson (fuel : Nat) (root : J) : Except WErr (List Nat) :=
  match root with
  | .obj wrapper =>
    let rootClass :=
      match (jGet wrapper (strBytes ("$rootClass"))).bind J.asStr with
      | some s => s
      | none => strBytes ("Root")
    match jGet wrapper (strBytes ("root")) with
    | none => .error .missingRootField
    | some rootVal => do
      let header : List Nat := [0] ++ writeI32 1 ++ writeI32 (-1) ++ writeI32 1 ++ writeI32 0
      let lib2 : List Nat := [12] ++ writeI32 2 ++ writeLpStr libGameName
      let lib3 : List Nat := [12] ++ writeI32 3 ++ writeLpStr libMscorlibName
      let (rbs, _) ← writeRoot fuel rootClass rootVal ⟨1, 100⟩
      .ok (header ++ lib2 ++ lib3 ++ rbs ++ [11])
  | _ => .error .rootMustBeObject

/-
  Projection Bridge: edit.rs document_to_json_value. serde_json maps are
  unordered (BTreeMap); the association lists below record the insertion
  order of the source, and equalities on them are up to that canonical
  representative.
-/

/-- JsonOpts (json.rs). -/
structure JsonOpts where
  maxArrayElems : Nat
  maxDepth : Nat
  bytesSummary : Bool
deriving Repr

/-- JsonOpts::default. -/
def defaultJsonOpts : JsonOpts := ⟨128, 16, true⟩

/-- Exact widening of an f32 bit pattern to the f64 bit pattern of the
same value (`x as f64`): sign preserved, exponent rebiased, mantissa
padded; subnormals renormalized; NaN/infinity mapped to exponent 2047
with the payload shifted into the high mantissa bits. -/
def f32ToF64Bits (b : Nat) : Nat :=
  let s := b / 2 ^ 31 % 2
  let e := b / 2 ^ 23 % 2 ^ 8
  let m := b % 2 ^ 23
  if e = 255 then s * 2 ^ 63 + 2047 * 2 ^ 52 + m * 2 ^ 29
  else if e = 0 then
    if m = 0 then s * 2 ^ 63
    else s * 2 ^ 63 + (Nat.log2 m + 874) * 2 ^ 52 + (m - 2 ^ Nat.log2 m) * 2 ^ (52 - Nat.log2 m)
  else s * 2 ^ 63 + (e + 896) * 2 ^ 52 + m * 2 ^ 29

/-- serde_json::Value::from(f : f64): NaN and infinities (exponent field
2047) become Null, finite values a Float number. -/
def jOfF64Bits (bits : Nat) : J :=
  if bits / 2 ^ 52 % 2 ^ 11 = 2047 then J.null else .num (.float bits)

/-- Class-name prefix of the recognized generic-list wrapper. -/
def listPrefixBytes : List Nat := strBytes ("System.Collections.Generic.List`1")

/-
  write_value of edit.rs, fuel-driven: the generic-list inlining path for
  Ref recurses at the same depth on a looked-up value, so the recursion
  is not structural; `none` marks fuel exhaustion and corresponds to no
  Rust behaviour on terminating inputs.
-/
mutual

def writeValueB (fuel : Nat) (doc : Document) (v : Val) (depth : Nat) (opts : JsonOpts) :
    Option J :=
  match fuel with
  | 0 => none
  | f + 1 =>
    match v with
    | .null => some .null
    | .bool b => some (.bool b)
    | .i32 x => some (.num (.int x))
    | .i64 x => some (.num (.int x))
    | .u32 x => some (.num (.int x))
    | .u64 x => some (if x < 2 ^ 63 then .num (.int x) else .num (.uint x))
    | .f32 bits => some (jOfF64Bits (f32ToF64Bits bits))
    | .f64 bits => some (jOfF64Bits bits)
    | .u8 x => some (.num (.int x))
    | .str s => some (.str s)
    | .bytes b =>
      some (if opts.bytesSummary then
          .obj [(strBytes ("$type"), .str (strBytes ("bytes"))),
                (strBytes ("len"), .num (.int b.length))]
        else .null)
    | .arr items =>
      let mx := min opts.maxArrayElems items.length
      do
        let rendered ← writeValsB f doc (items.take mx) depth opts
        some (.arr (rendered ++
          (if mx < items.length then
            [.obj [(strBytes ("$truncated"), .bool true),
                   (strBytes ("$omitted"), .num (.int (items.length - mx)))]]
          else [])))
    | .obj cn _ members => do
      let ms ← writeMembersB f doc members depth opts
      some (.obj ((strBytes ("$class"), .str cn) :: ms))
    | .ref id =>
      match doc.getObject id with
      | some (.obj cn2 _ mem2) =>
        if listPrefixBytes.isPrefixOf cn2 then
          match mem2.find? fun p => p.1 == strBytes ("_items") with
          | some (_, .ref itemsId) =>
            match doc.getObject itemsId with
            | some items => writeValueB f doc items depth opts
            | none => refRenderB f doc id depth opts
          | _ => refRenderB f doc id depth opts
        else refRenderB f doc id depth opts
      | _ => refRenderB f doc id depth opts
termination_by structural fuel

def refRenderB (fuel : Nat) (doc : Document) (id : Int) (depth : Nat) (opts : JsonOpts) :
    Option J :=
  match fuel with
  | 0 => none
  | f + 1 =>
    match doc.getObject id with
    | some v2 =>
      if depth < opts.maxDepth then do
        let rendered ← writeValueB f doc v2 (depth + 1) opts
        some (.obj [(strBytes ("$ref"), .num (.int id)), (strBytes ("$value"), rendered)])
      else some (.obj [(strBytes ("$ref"), .num (.int id))])
    | none => some (.obj [(strBytes ("$ref"), .num (.int id))])
termination_by structural fuel

def writeValsB (fuel : Nat) (doc : Document) (items : List Val) (depth : Nat)
    (opts : JsonOpts) : Option (List J) :=
  match fuel with
  | 0 => none
  | f + 1 =>
    match items with
    | [] => some []
    | it :: rest => do
      let x ← if opts.maxDepth ≤ depth then some J.null else writeValueB f doc it (depth + 1) opts
      let xs ← writeValsB f doc rest depth opts
      some (x :: xs)
termination_by structural fuel

def writeMembersB (fuel : Nat) (doc : Document) (members : List (List Nat × Val))
    (depth : Nat) (opts : JsonOpts) : Option (List (List Nat × J)) :=
  match fuel with
  | 0 => none
  | f + 1 =>
    match members with
    | [] => some []
    | (name, val) :: rest => do
      let x ← if opts.maxDepth ≤ depth then some J.null
              else writeValueB f doc val (depth + 1) opts
      let xs ← writeMembersB f doc rest depth opts
      some ((name, x) :: xs)
termination_by structural fuel

end

/-- document_to_json_value of edit.rs: the wrapper object around the
rendered root. -/
def documentToJsonValue (fuel : Nat) (doc : Document) (opts : JsonOpts) : Option J := do
  let rootJ ←
    match doc.root with
    | some v => writeValueB fuel doc v 1 opts
    | none => some J.null
  some (.obj [(strBytes ("$rootClass"),
      .str (match doc.rootClassName with
        | some cn => cn
        | none => strBytes ("<unknown>"))),
    (strBytes ("root"), rootJ)])

theorem length_natToLE (w v : Nat) : (natToLE w v).length = w := by
  induction w generalizing v with
  | zero => rfl
  | succ w ih => simp [natToLE, ih]

theorem leVal_natToLE (w v : Nat) (h : v < 2 ^ (8 * w)) : leVal (natToLE w v) = v := by
  induction w generalizing v with
  | zero =>
    simp at h
    simp [natToLE, leVal, h]
  | succ w ih =>
    have hv : v / 256 < 2 ^ (8 * w) := by
      apply Nat.div_lt_of_lt_mul
      have he : 2 ^ (8 * (w + 1)) = 256 * 2 ^ (8 * w) := by ring
      omega
    simp only [natToLE, leVal, ih _ hv]
    omega

theorem dropCons {data : List Nat} {pos : Nat} {x : Nat} {l : List Nat}
    (h : data.drop pos = x :: l) : data[pos]? = some x ∧ data.drop (pos + 1) = l := by
  constructor
  · have h0 : (data.drop pos)[0]? = some x := by rw [h]; simp
    rw [List.getElem?_drop] at h0
    simpa using h0
  · have : (data.drop pos).drop 1 = l := by rw [h]; rfl
    rw [List.drop_drop] at this
    simpa [Nat.add_comm] using this

theorem dropChunk {data : List Nat} {pos : Nat} {c l : List Nat}
    (h : data.drop pos = c ++ l) : data.drop (pos + c.length) = l := by
  have : (data.drop pos).drop c.length = l := by rw [h]; simp
  rw [List.drop_drop] at this
  exact this

theorem chunkLen {data : List Nat} {pos : Nat} {c l : List Nat}
    (h : data.drop pos = c ++ l) (hc : 0 < c.length) : pos + c.length ≤ data.length := by
  have hl := congrArg List.length h
  simp [List.length_drop] at hl
  omega

theorem takeChunk {data : List Nat} {pos : Nat} {c l : List Nat}
    (h : data.drop pos = c ++ l) : (data.drop pos).take c.length = c := by
  rw [h]
  exact List.take_left c l



theorem readU8_chunk {data : List Nat} {pos : Nat} {b : Nat} {l : List Nat}
    (h : data.drop pos = b :: l) : readU8 data pos = .ok (b, pos + 1) := by
  simp [readU8, (dropCons h).1]

theorem peek_chunk {data : List Nat} {pos : Nat} {b : Nat} {l : List Nat}
    (h : data.drop pos = b :: l) : data[pos]? = some b := (dropCons h).1

theorem readU16_chunk {data : List Nat} {pos v : Nat} {l : List Nat}
    (h : data.drop pos = natToLE 2 v ++ l) (hv : v < 2 ^ 16) :
    readU16 data pos = .ok (v, pos + 2) := by
  have hlen := chunkLen h (by simp [length_natToLE])
  have htake := takeChunk h
  rw [length_natToLE] at hlen htake
  have hval : leVal (natToLE 2 v) = v := leVal_natToLE 2 v (by norm_num at hv ⊢; omega)
  simp [readU16, if_pos hlen, htake, hval]

theorem readU32_chunk {data : List Nat} {pos v : Nat} {l : List Nat}
    (h : data.drop pos = natToLE 4 v ++ l) (hv : v < 2 ^ 32) :
    readU32 data pos = .ok (v, pos + 4) := by
  have hlen := chunkLen h (by simp [length_natToLE])
  have htake := takeChunk h
  rw [length_natToLE] at hlen htake
  have hval : leVal (natToLE 4 v) = v := leVal_natToLE 4 v (by norm_num at hv ⊢; omega)
  simp [readU32, if_pos hlen, htake, hval]

theorem readU64_chunk {data : List Nat} {pos v : Nat} {l : List Nat}
    (h : data.drop pos = natToLE 8 v ++ l) (hv : v < 2 ^ 64) :
    readU64 data pos = .ok (v, pos + 8) := by
  have hlen := chunkLen h (by simp [length_natToLE])
  have htake := takeChunk h
  rw [length_natToLE] at hlen htake
  have hval : leVal (natToLE 8 v) = v := leVal_natToLE 8 v (by norm_num at hv ⊢; omega)
  simp [readU64, if_pos hlen, htake, hval]

theorem readI32_chunk {data : List Nat} {pos v : Nat} {l : List Nat}
    (h : data.drop pos = natToLE 4 v ++ l) (hv : v < 2 ^ 32) :
    readI32 data pos = .ok (toI32 v, pos + 4) := by
  unfold readI32
  rw [readU32_chunk h hv]
  rfl

theorem readI64_chunk {data : List Nat} {pos v : Nat} {l : List Nat}
    (h : data.drop pos = natToLE 8 v ++ l) (hv : v < 2 ^ 64) :
    readI64 data pos = .ok (toI64 v, pos + 8) := by
  unfold readI64
  rw [readU64_chunk h hv]
  rfl

theorem readSlice_chunk {data : List Nat} {pos : Nat} {c l : List Nat}
    (h : data.drop pos = c ++ l) (hpos : pos ≤ data.length) :
    readSlice data pos c.length = .ok (c, pos + c.length) := by
  have hl := congrArg List.length h
  simp [List.length_drop] at hl
  have hlen : pos + c.length ≤ data.length := by omega
  simp [readSlice, if_pos hlen, takeChunk h]

theorem toI32_ofNat {n : Nat} (h : n < 2 ^ 31) : toI32 n = (n : Int) := by
  unfold toI32
  split
  · rfl
  · omega

theorem usizeOfI32_ofNat {n : Nat} (h : n < 2 ^ 31) : usizeOfI32 (toI32 n) = n := by
  rw [toI32_ofNat h]
  unfold usizeOfI32
  rw [Int.emod_eq_of_lt (by positivity) (by omega)]
  exact Int.toNat_ofNat n

theorem i32LE_ofNat {n : Nat} (h : n < 2 ^ 32) : i32LE (n : Int) = natToLE 4 n := by
  unfold i32LE
  rw [Int.emod_eq_of_lt (by positivity) (by exact_mod_cast h)]
  simp

theorem toI64_roundtrip {i : Int} (h1 : -(2 ^ 63) ≤ i) (h2 : i < 2 ^ 63) :
    toI64 ((i % (2 ^ 64 : Int)).toNat) = i := by
  unfold toI64
  split <;> omega

theorem toI32_roundtrip {i : Int} (h1 : -(2 ^ 31) ≤ i) (h2 : i < 2 ^ 31) :
    toI32 ((i % (2 ^ 32 : Int)).toNat) = i := by
  unfold toI32
  split <;> omega



theorem andMask7 (b : Nat) : b &&& 127 = b % 128 := by
  have h := Nat.and_pow_two_sub_one_eq_mod b 7
  norm_num at h
  exact h

theorem lorShift (a b k : Nat) (h : a < 2 ^ k) : a ||| (b <<< k) = b * 2 ^ k + a := by
  rw [Nat.shiftLeft_eq, Nat.mul_comm b (2 ^ k), Nat.lor_comm, ← Nat.mul_add_lt_is_or h]

theorem testBit7 (b : Nat) : b.testBit 7 = decide (b / 128 % 2 = 1) := by
  rw [Nat.testBit_to_div_mod]

theorem andBit7set (b : Nat) (h1 : 128 ≤ b) (h2 : b < 256) : b &&& 128 = 128 := by
  have h := Nat.and_two_pow b 7
  norm_num at h
  rw [h, testBit7]
  have : b / 128 % 2 = 1 := by omega
  simp [this]

theorem andBit7clear (b : Nat) (h : b < 128) : b &&& 128 = 0 := by
  have h2 := Nat.and_two_pow b 7
  norm_num at h2
  rw [h2, testBit7]
  have : b / 128 % 2 = 0 := by omega
  simp [this]

/-- Little-endian 7-bit accumulation value of a varint byte list. -/
def sevenBitVal : List Nat → Nat
  | [] => 0
  | b :: rest => b % 128 + 128 * sevenBitVal rest

theorem read7Go_ok : ∀ (cont : List Nat) (last : Nat) (rest data : List Nat)
    (pos result shift k : Nat),
    data.drop pos = cont ++ last :: rest →
    (∀ b ∈ cont, 128 ≤ b ∧ b < 256) → last < 128 →
    result < 2 ^ shift → shift + 7 * cont.length ≤ 28 → cont.length < k →
    read7Go data pos result shift k =
      .ok (result + 2 ^ shift * sevenBitVal (cont ++ [last]), pos + (cont.length + 1)) := by
  intro cont
  induction cont with
  | nil =>
    intro last rest data pos result shift k h hc hl hr hs hk
    match k, hk with
    | k + 1, _ =>
      simp only [List.nil_append] at h
      rw [read7Go, peek_chunk h]
      dsimp only
      rw [andBit7clear last hl]
      rw [if_pos (by decide : (((0 : Nat) == 0) = true))]
      rw [andMask7, lorShift _ _ _ hr]
      simp only [sevenBitVal, List.nil_append, List.length_nil, Nat.mul_zero, Nat.add_zero,
        Nat.zero_add]
      congr 1
      simp only [Prod.mk.injEq]
      exact ⟨by ring, trivial⟩
  | cons b cont ih =>
    intro last rest data pos result shift k h hc hl hr hs hk
    match k, hk with
    | k + 1, hk2 =>
      simp only [List.cons_append] at h
      obtain ⟨hb1, hb2⟩ := hc b (List.mem_cons_self ..)
      rw [read7Go, peek_chunk h]
      dsimp only
      rw [andBit7set b hb1 hb2]
      rw [if_neg (by decide : ¬ (((128 : Nat) == 0) = true))]
      have hshift : ¬ (shift + 7 > 28) := by
        simp only [List.length_cons] at hs
        omega
      rw [if_neg hshift]
      have hlt128 : b % 128 < 128 := Nat.mod_lt _ (by norm_num)
      have hpow : (0 : Nat) < 2 ^ shift := Nat.pos_pow_of_pos _ (by norm_num)
      have hres : result ||| ((b &&& 127) <<< shift) = b % 128 * 2 ^ shift + result := by
        rw [andMask7, lorShift _ _ _ hr]
      have harg : b % 128 * 2 ^ shift + result < 2 ^ (shift + 7) := by
        have h2 : (2 : Nat) ^ (shift + 7) = 2 ^ shift * 128 := by ring
        nlinarith
      have hrec := ih last rest data (pos + 1) (result ||| ((b &&& 127) <<< shift)) (shift + 7) k
        (dropCons h).2 (fun x hx => hc x (List.mem_cons_of_mem _ hx)) hl
        (by rw [hres]; exact harg)
        (by simp only [List.length_cons] at hs; omega)
        (by simp only [List.length_cons] at hk2; omega)
      rw [hrec, hres]
      simp only [sevenBitVal, List.cons_append, List.length_cons]
      congr 1
      simp only [Prod.mk.injEq]
      constructor
      · generalize sevenBitVal (cont ++ [last]) = sv
        rw [pow_add]
        ring
      · omega



theorem read7Go_fail5 (b1 b2 b3 b4 b5 : Nat) (rest data : List Nat) (pos result : Nat)
    (h : data.drop pos = b1 :: b2 :: b3 :: b4 :: b5 :: rest)
    (hb : ∀ b ∈ [b1, b2, b3, b4, b5], 128 ≤ b ∧ b < 256) :
    read7Go data pos result 0 5 = .error .varintTooLarge := by
  obtain ⟨q1, r1⟩ := dropCons h
  obtain ⟨q2, r2⟩ := dropCons r1
  obtain ⟨q3, r3⟩ := dropCons r2
  obtain ⟨q4, r4⟩ := dropCons r3
  obtain ⟨q5, r5⟩ := dropCons r4
  have m1 := hb b1 (by simp)
  have m2 := hb b2 (by simp)
  have m3 := hb b3 (by simp)
  have m4 := hb b4 (by simp)
  have m5 := hb b5 (by simp)
  rw [read7Go, q1]
  dsimp only
  rw [andBit7set b1 m1.1 m1.2, if_neg (by decide : ¬ (((128 : Nat) == 0) = true)),
    if_neg (by norm_num : ¬ ((0 : Nat) + 7 > 28))]
  rw [read7Go, q2]
  dsimp only
  rw [andBit7set b2 m2.1 m2.2, if_neg (by decide : ¬ (((128 : Nat) == 0) = true)),
    if_neg (by norm_num : ¬ ((0 : Nat) + 7 + 7 > 28))]
  rw [read7Go, q3]
  dsimp only
  rw [andBit7set b3 m3.1 m3.2, if_neg (by decide : ¬ (((128 : Nat) == 0) = true)),
    if_neg (by norm_num : ¬ ((0 : Nat) + 7 + 7 + 7 > 28))]
  rw [read7Go, q4]
  dsimp only
  rw [andBit7set b4 m4.1 m4.2, if_neg (by decide : ¬ (((128 : Nat) == 0) = true)),
    if_neg (by norm_num : ¬ ((0 : Nat) + 7 + 7 + 7 + 7 > 28))]
  rw [read7Go, q5]
  dsimp only
  rw [andBit7set b5 m5.1 m5.2, if_neg (by decide : ¬ (((128 : Nat) == 0) = true)),
    if_pos (by norm_num : ((0 : Nat) + 7 + 7 + 7 + 7 + 7 > 28))]

theorem write7Go_decomp : ∀ f v, v < f →
    ∃ cont last, write7Go f v = cont ++ [last] ∧ (∀ b ∈ cont, 128 ≤ b ∧ b < 256) ∧
      last < 128 ∧ sevenBitVal (cont ++ [last]) = v ∧
      v < 128 ^ (cont.length + 1) ∧ (cont.length = 0 ∨ 128 ^ cont.length ≤ v) := by
  intro f
  induction f with
  | zero => omega
  | succ g ih =>
    intro v hv
    by_cases hbig : 128 ≤ v
    · have hdiv : v / 128 < g := by
        have d1 : v / 128 < v := Nat.div_lt_self (by omega) (by norm_num)
        omega
      obtain ⟨cont, last, heq, hcont, hlast, hval, hub, hlb⟩ := ih (v / 128) hdiv
      refine ⟨(v % 128 + 128) :: cont, last, ?_, ?_, hlast, ?_, ?_, ?_⟩
      · rw [write7Go, if_pos hbig, heq, List.cons_append]
      · intro b hbm
        rcases List.mem_cons.1 hbm with hb | hb
        · subst hb
          have := Nat.mod_lt v (show 0 < 128 by norm_num)
          omega
        · exact hcont b hb
      · simp only [List.cons_append, sevenBitVal, List.append_eq, hval]
        have hmm : (v % 128 + 128) % 128 = v % 128 := by omega
        rw [hmm]
        omega
      · simp only [List.length_cons]
        have : (128 : Nat) ^ (cont.length + 1 + 1) = 128 ^ (cont.length + 1) * 128 := by ring
        have hv2 : v < 128 * 128 ^ (cont.length + 1) := by
          have hdd : v / 128 < 128 ^ (cont.length + 1) := hub
          omega
        omega
      · right
        simp only [List.length_cons]
        rcases hlb with h0 | hge
        · rw [h0]
          norm_num
          omega
        · have : 128 ^ (cont.length + 1) = 128 * 128 ^ cont.length := by ring
          have h128 : 128 * 128 ^ cont.length ≤ 128 * (v / 128) := by
            exact Nat.mul_le_mul_left _ hge
          have : 128 * (v / 128) ≤ v := Nat.mul_div_le v 128
          omega
    · refine ⟨[], v, ?_, by simp, by omega, ?_, ?_, by simp⟩
      · rw [write7Go, if_neg hbig]
        simp
      · simp [sevenBitVal]
        omega
      · simpa using by omega



theorem ok_bind {ε α β : Type} (a : α) (f : α → Except ε β) :
    ((Except.ok a : Except ε α) >>= f) = f a := rfl

theorem read7_write7 {data l : List Nat} {pos v : Nat} (hv : v < 2 ^ 35)
    (h : data.drop pos = write7 v ++ l) :
    read7BitLen data pos = .ok (v, pos + (write7 v).length) := by
  obtain ⟨cont, last, heq, hcont, hlast, hval, hub, hlb⟩ := write7Go_decomp (v + 1) v (by omega)
  have hwr : write7 v = cont ++ [last] := by rw [write7]; exact heq
  rw [hwr] at h
  have h2 : data.drop pos = cont ++ last :: l := by simpa [List.append_assoc] using h
  have hlen : cont.length ≤ 4 := by
    rcases hlb with h0 | hge
    · omega
    · by_contra hgt
      push_neg at hgt
      have hp : (128 : Nat) ^ 5 ≤ 128 ^ cont.length := Nat.pow_le_pow_right (by norm_num) (by omega)
      have he : (128 : Nat) ^ 5 = 2 ^ 35 := by norm_num
      omega
  have hrun := read7Go_ok cont last l data pos 0 0 5 h2 hcont hlast (by norm_num) (by omega)
    (by omega)
  rw [read7BitLen, hrun]
  congr 1
  simp only [Prod.mk.injEq]
  constructor
  · simp [hval]
  · rw [hwr]
    simp

theorem write7_length_pos (v : Nat) : 0 < (write7 v).length := by
  rw [write7, write7Go]
  split <;> simp

theorem readLpString_chunk {data l : List Nat} {pos : Nat} {s : List Nat}
    (hs : s.length < 2 ^ 35) (hutf : utf8Valid s = true)
    (h : data.drop pos = writeLpStr s ++ l) :
    readLpString data pos = .ok (s, pos + (writeLpStr s).length) := by
  rw [writeLpStr] at h
  rw [List.append_assoc] at h
  have h7 := read7_write7 hs h
  have hdrop : data.drop (pos + (write7 s.length).length) = s ++ l :=
    dropChunk h
  have hpos : pos + (write7 s.length).length ≤ data.length :=
    chunkLen h (write7_length_pos _)
  have hsl := readSlice_chunk hdrop hpos
  rw [readLpString, h7]
  simp only [ok_bind]
  rw [hsl]
  simp only [ok_bind]
  rw [if_pos hutf]
  congr 1
  simp [writeLpStr, Nat.add_assoc]

theorem readI32_pos {data : List Nat} {pos : Nat} (h : pos + 4 ≤ data.length) :
    readI32 data pos = .ok (toI32 (leVal ((data.drop pos).take 4)), pos + 4) := by
  unfold readI32 readU32
  rw [if_pos h]
  rfl

/-- C5 (counterexample): an ArraySingleObject record whose first element
is an ObjectNullMultiple256 run record does not expand the run: the
element decoder rejects tag 13 as an unexpected object-like record. -/
theorem c5_counterexample :
    readArraySingleObject 3 [9, 0, 0, 0, 1, 0, 0, 0, 13, 5] 0 emptyCtx =
      .error (.unexpectedObjectLike 13 8) := rfl

set_option maxRecDepth 40000 in
/-- C5 (amended): null-run records expand to exactly their count of
discrete Null elements only inside BinaryArray object-typed element
sequences - a general-form run of 300 nulls yields exactly 300 Null
elements there - while ArraySingleObject element decoding rejects
null-run records (tag 14 shown) as unexpected object-like records. -/
theorem c5_null_run_expansion :
    readBinaryArray 3
        ([1, 0, 0, 0] ++ [0] ++ [1, 0, 0, 0] ++ [44, 1, 0, 0] ++ [2] ++ [14, 44, 1, 0, 0])
        0 emptyCtx =
      .ok (1, .arr (List.replicate 300 .null), 19, emptyCtx) ∧
    readArraySingleObject 3 [9, 0, 0, 0, 1, 0, 0, 0, 14, 5, 0, 0, 0] 0 emptyCtx =
      .error (.unexpectedObjectLike 14 8) := ⟨rfl, rfl⟩

/-- C9: in BinaryArray object-typed element decoding the declared length
is not an upper bound: a null-run record whose count (5) exceeds the
elements still needed for the declared length (1) appends all its nulls,
so the decoded array has more elements than the declared length. -/
theorem c9_null_run_overshoot :
    readBinaryArray 3 [2, 0, 0, 0, 0, 1, 0, 0, 0, 1, 0, 0, 0, 2, 13, 5] 0 emptyCtx =
      .ok (2, .arr (List.replicate 5 .null), 16, emptyCtx) ∧
    usizeOfI32 (toI32 (leVal [1, 0, 0, 0])) < (List.replicate 5 Val.null).length :=
  ⟨rfl, by decide⟩

/-- C2 (supporting, code_bug): the 27-byte buffer declaring an
ArraySinglePrimitive of length -1: the i32 length reinterprets as the
usize 2^64 - 1, far above the isize::MAX bound at which
Vec::with_capacity panics - the embedding, which does not model
allocation, runs on to an end-of-buffer error instead. -/
theorem c2_parse_negative_length :
    parseStream 10
        ([0] ++ [1, 0, 0, 0] ++ [255, 255, 255, 255] ++ [1, 0, 0, 0] ++ [0, 0, 0, 0] ++
          [15] ++ [1, 0, 0, 0] ++ [255, 255, 255, 255] ++ [8]) =
      .error .eof ∧
    usizeOfI32 (toI32 (leVal [255, 255, 255, 255])) = 2 ^ 64 - 1 ∧
    2 ^ 63 - 1 < usizeOfI32 (toI32 (leVal [255, 255, 255, 255])) :=
  ⟨rfl, by decide, by decide⟩

/-- C3 (counterexample): the array [1, 2, 3000000000] - all three
elements i64-representable serde numbers - infers the Int64 primitive
kind, not UInt64 and not Double as the claim states. -/
theorem c3_counterexample :
    inferPrimitiveArrayType [.num (.int 1), .num (.int 2), .num (.int 3000000000)] =
      some .int64 ∧
    some PrimType.int64 ≠ some PrimType.uint64 ∧
    some PrimType.int64 ≠ some PrimType.double := by
  refine ⟨?_, by decide, by decide⟩
  rfl

/-- C3 (amended): [] infers Int32; [0, 1, 255] infers Byte;
[1, 2, 3000000000] infers Int64 (all elements fit 64-bit signed and
3000000000 exceeds the 32-bit signed range, so no Int32 downgrade); the
mixed [1, "a"] falls back to an object array whose encoding fails with
the non-object-element error. -/
theorem c3_inference_examples :
    inferPrimitiveArrayType [] = some .int32 ∧
    inferPrimitiveArrayType [.num (.int 0), .num (.int 1), .num (.int 255)] = some .byte ∧
    inferPrimitiveArrayType [.num (.int 1), .num (.int 2), .num (.int 3000000000)] =
      some .int64 ∧
    ∀ (f : Nat) (st : WState),
      writeArray (f + 3) [.num (.int 1), .str [97]] st = .error .arrayElementNotObject := by
  refine ⟨rfl, rfl, rfl, ?_⟩
  intro f st
  rfl

/-- C10: decoding a String-typed member that is a MemberReference record
resolves through the object registry: an id registered as a string value
decodes to that string itself, any other id decodes to a Reference. -/
theorem c10_member_reference_string (data : List Nat) (pos : Nat) (ctx : Ctx)
    (htag : data[pos]? = some 9) (hlen : pos + 5 ≤ data.length) :
    readNextStringLike data pos ctx =
      .ok ((match alGet ctx.objects (toI32 (leVal ((data.drop (pos + 1)).take 4))) with
            | some (.str s) => Val.str s
            | _ => Val.ref (toI32 (leVal ((data.drop (pos + 1)).take 4)))),
        pos + 5, ctx) := by
  rw [readNextStringLike, htag]
  dsimp only
  rw [if_neg (by decide : ¬ ((9 : Nat) = 6)), if_pos rfl]
  rw [readI32_pos (by omega)]
  simp only [ok_bind]
  have hp : pos + 1 + 4 = pos + 5 := by omega
  rw [hp]
  cases halg : alGet ctx.objects (toI32 (leVal ((data.drop (pos + 1)).take 4))) with
  | none => rfl
  | some v => cases v <;> rfl

/-- C10 witness. -/
theorem c10_member_reference_string_witness :
    readNextStringLike [9, 7, 0, 0, 0] 0 { emptyCtx with objects := [(7, .str [104, 105])] } =
      .ok (.str [104, 105], 5, { emptyCtx with objects := [(7, .str [104, 105])] }) := by
  have h := c10_member_reference_string [9, 7, 0, 0, 0] 0
    { emptyCtx with objects := [(7, .str [104, 105])] } (by rfl) (by decide)
  simpa using h



/-- C6: ClassWithId looks up the ClassMeta registered under its metadata
id; the parse fails with the unresolved-metadata-id error (at the offset
of the metadata id) exactly when the registry has no entry for that id,
and otherwise decodes the members with the recorded type list when the
layout has one, else with the untyped peek-dispatch decoder. -/
theorem c6_class_with_id_lookup (f : Nat) (data : List Nat) (pos : Nat) (ctx : Ctx)
    (h : pos + 8 ≤ data.length) :
    (alGet ctx.classMeta (toI32 (leVal ((data.drop (pos + 4)).take 4))) = none →
      readClassWithId (f + 1) data pos ctx =
        .error (.unknownMetadataId (toI32 (leVal ((data.drop (pos + 4)).take 4))) (pos + 4))) ∧
    (∀ meta, alGet ctx.classMeta (toI32 (leVal ((data.drop (pos + 4)).take 4))) = some meta →
      readClassWithId (f + 1) data pos ctx =
        (match meta.memberTypes with
          | some types =>
            (readMembersTyped f data (meta.memberNames.zip types) (pos + 8) ctx).map
              fun r => (toI32 (leVal ((data.drop pos).take 4)),
                Val.obj meta.className meta.libraryId r.1, r.2.1, r.2.2)
          | none =>
            (readMembersUntyped f data meta.memberNames (pos + 8) ctx).map
              fun r => (toI32 (leVal ((data.drop pos).take 4)),
                Val.obj meta.className meta.libraryId r.1, r.2.1, r.2.2))) := by
  have e1 : readI32 data pos = .ok (toI32 (leVal ((data.drop pos).take 4)), pos + 4) :=
    readI32_pos (by omega)
  have e2 : readI32 data (pos + 4) =
      .ok (toI32 (leVal ((data.drop (pos + 4)).take 4)), pos + 4 + 4) :=
    readI32_pos (by omega)
  have hp : pos + 4 + 4 = pos + 8 := by omega
  constructor
  · intro hnone
    rw [readClassWithId, e1]
    simp only [ok_bind]
    rw [e2]
    simp only [ok_bind]
    rw [hp, hnone]
    simp
  · intro meta hsome
    rw [readClassWithId, e1]
    simp only [ok_bind]
    rw [e2]
    simp only [ok_bind]
    rw [hp, hsome]
    dsimp only
    cases hmt : meta.memberTypes with
    | some types =>
      dsimp only
      cases hR : readMembersTyped f data (meta.memberNames.zip types) (pos + 8) ctx with
      | ok r => rfl
      | error e => rfl
    | none =>
      dsimp only
      cases hR : readMembersUntyped f data meta.memberNames (pos + 8) ctx with
      | ok r => rfl
      | error e => rfl

/-- C6 witness. -/
theorem c6_class_with_id_lookup_witness :
    readClassWithId 1 [0, 0, 0, 0, 2, 0, 0, 0] 0 emptyCtx =
      .error (.unknownMetadataId 2 4) := by
  have h := (c6_class_with_id_lookup 0 [0, 0, 0, 0, 2, 0, 0, 0] 0 emptyCtx (by decide)).1
    (by rfl)
  simpa using h

/-- C4 (counterexample): a varint encoding with exactly 5 continuation
bytes already fails as malformed (the claim's boundary predicts failure
only past 5): byte 0x80 five times followed by a terminating 0x00 is
rejected. -/
theorem c4_counterexample :
    read7BitLen [128, 128, 128, 128, 128, 0] 0 = .error .varintTooLarge := rfl

/-- C4 (amended): the 7-bit varint decoder fails as malformed exactly
when it meets 5 continuation bytes (its shift then exceeds 28 bits):
every encoding of at most 4 continuation bytes followed by a terminating
byte decodes to the accumulated little-endian 7-bit value, and any
buffer beginning with 5 continuation bytes is rejected as malformed. -/
theorem c4_varint_boundary :
    (∀ (cont : List Nat) (last : Nat) (post : List Nat),
      cont.length ≤ 4 → (∀ b ∈ cont, 128 ≤ b ∧ b < 256) → last < 128 →
      read7BitLen (cont ++ last :: post) 0 =
        .ok (sevenBitVal (cont ++ [last]), cont.length + 1)) ∧
    (∀ (c5 post : List Nat), c5.length = 5 → (∀ b ∈ c5, 128 ≤ b ∧ b < 256) →
      read7BitLen (c5 ++ post) 0 = .error .varintTooLarge) := by
  constructor
  · intro cont last post hlen hcont hlast
    have h := read7Go_ok cont last post (cont ++ last :: post) 0 0 0 5
      (by rw [List.drop_zero]) hcont hlast (by norm_num) (by omega) (by omega)
    rw [read7BitLen, h]
    simp
  · intro c5 post h5 hc
    match c5, h5 with
    | [b1, b2, b3, b4, b5], _ =>
      have h : ([b1, b2, b3, b4, b5] ++ post).drop 0 = b1 :: b2 :: b3 :: b4 :: b5 :: post := by
        simp
      exact read7Go_fail5 b1 b2 b3 b4 b5 post _ 0 0 h hc

/-- C4 witness: the two-byte encoding 0x85 0x03 (one continuation byte)
decodes to 389. -/
theorem c4_varint_boundary_witness :
    read7BitLen [133, 3] 0 = .ok (389, 2) ∧
    read7BitLen [128, 128, 128, 128, 128] 0 = .error .varintTooLarge := by
  constructor
  · have h := c4_varint_boundary.1 [133] 3 [] (by decide)
      (by intro b hb; simp at hb; omega) (by decide)
    simpa [sevenBitVal] using h
  · have h := c4_varint_boundary.2 [128, 128, 128, 128, 128] [] (by decide)
      (by intro b hb; simp at hb; omega)
    simpa using h

/-- Depth-n nesting of singleton arrays around an Int32 leaf, the example
family for the Bridge depth cap. -/
def nestV : Nat → Val
  | 0 => .i32 7
  | n + 1 => .arr [nestV n]

/-- Depth-n nesting of singleton JSON arrays around a given leaf. -/
def nestJ : Nat → J → J
  | 0, j => j
  | n + 1, j => .arr [nestJ n j]

set_option maxRecDepth 100000 in
/-- C8: the Bridge bounds size and depth: a decoded 1000-element array
under the default max_array_elems = 128 renders exactly the first 128
elements followed by one trailing marker object carrying omitted count
872, and a value nested past the default max_depth = 16 renders as null
at the first depth that exceeds the cap (17 nested arrays render as 16
nested arrays around null). -/
theorem c8_bridge_truncation_and_depth :
    (∀ ctx : Ctx,
      documentToJsonValue 300 ⟨some 1, some (.arr (List.replicate 1000 (Val.i32 7))), ctx⟩
          defaultJsonOpts =
        some (.obj [(strBytes ("$rootClass"), .str (strBytes ("<unknown>"))),
          (strBytes ("root"), .arr (List.replicate 128 (J.num (.int 7)) ++
            [.obj [(strBytes ("$truncated"), .bool true),
                   (strBytes ("$omitted"), .num (.int 872))]]))])) ∧
    (∀ ctx : Ctx,
      documentToJsonValue 100 ⟨some 1, some (nestV 17), ctx⟩ defaultJsonOpts =
        some (.obj [(strBytes ("$rootClass"), .str (strBytes ("<unknown>"))),
          (strBytes ("root"), nestJ 16 J.null)])) :=
  ⟨fun _ => rfl, fun _ => rfl⟩

theorem sizeOf_pos_j : ∀ v : J, 1 ≤ sizeOf v := by
  intro v
  cases v <;> simp

theorem sizeOf_insertPair (p : List Nat × J) :
    ∀ l : List (List Nat × J), sizeOf (insertPair p l) = sizeOf (p :: l) := by
  intro l
  induction l with
  | nil => rfl
  | cons q rest ih =>
    rw [insertPair]
    split
    · rfl
    · simp only [List.cons.sizeOf_spec, ih]
      omega

theorem sizeOf_sortPairs : ∀ l : List (List Nat × J), sizeOf (sortPairs l) = sizeOf l := by
  intro l
  induction l with
  | nil => rfl
  | cons p rest ih =>
    rw [sortPairs, sizeOf_insertPair]
    simp only [List.cons.sizeOf_spec, ih]

theorem sizeOf_filter_le (q : List Nat × J → Bool) :
    ∀ l : List (List Nat × J), sizeOf (l.filter q) ≤ sizeOf l := by
  intro l
  induction l with
  | nil => simp
  | cons p rest ih =>
    rw [List.filter_cons]
    split
    · simp only [List.cons.sizeOf_spec]
      omega
    · simp only [List.cons.sizeOf_spec]
      have := sizeOf_pos_j p.2
      omega

theorem sizeOf_filterClass_le (l : List (List Nat × J)) :
    sizeOf (filterClass l) ≤ sizeOf l := sizeOf_filter_le _ l

theorem mem_insertPair {p q : List Nat × J} {l : List (List Nat × J)} :
    q ∈ insertPair p l → q = p ∨ q ∈ l := by
  induction l with
  | nil =>
    intro h
    simp [insertPair] at h
    exact Or.inl h
  | cons r rest ih =>
    intro h
    rw [insertPair] at h
    split at h
    · rcases List.mem_cons.1 h with h1 | h1
      · exact Or.inl h1
      · exact Or.inr h1
    · rcases List.mem_cons.1 h with h1 | h1
      · exact Or.inr (List.mem_cons.2 (Or.inl h1))
      · rcases ih h1 with h2 | h2
        · exact Or.inl h2
        · exact Or.inr (List.mem_cons.2 (Or.inr h2))

theorem mem_sortPairs {q : List Nat × J} : ∀ {l : List (List Nat × J)},
    q ∈ sortPairs l → q ∈ l := by
  intro l
  induction l with
  | nil => intro h; simp [sortPairs] at h
  | cons p rest ih =>
    intro h
    rw [sortPairs] at h
    rcases mem_insertPair h with h1 | h1
    · exact h1 ▸ List.mem_cons_self ..
    · exact List.mem_cons.2 (Or.inr (ih h1))

theorem mem_filterClass {q : List Nat × J} {l : List (List Nat × J)} :
    q ∈ filterClass l → q ∈ l := fun h => (List.mem_filter.1 h).1

theorem sizeOf_snd_lt {p : List Nat × J} : ∀ {l : List (List Nat × J)},
    p ∈ l → sizeOf p.2 < sizeOf l := by
  intro l
  induction l with
  | nil => intro h; simp at h
  | cons q rest ih =>
    intro h
    rcases List.mem_cons.1 h with h1 | h1
    · subst h1
      simp only [List.cons.sizeOf_spec, Prod.mk.sizeOf_spec]
      cases p with
      | mk a b =>
        simp
        omega
    · have := ih h1
      simp only [List.cons.sizeOf_spec]
      omega

/-- Well-formedness of a string leaf: valid UTF-8 and a length the i32
and varint paths carry faithfully. -/
def wfStr (s : List Nat) : Bool := utf8Valid s && decide (s.length < 2 ^ 31)

/-
  Well-formedness of the C1 tree fragment: scalars (null, booleans,
  integers in i64 range, uints above i64 in u64 range, float bit
  patterns), UTF-8 strings, and nested plain objects (no arrays, no
  byte-summary marker objects, serde-style distinct keys, member counts
  in i32 range).
-/
mutual

def wfJ : J → Bool
  | .null => true
  | .bool _ => true
  | .num (.int i) => decide (-(2 ^ 63 : Int) ≤ i) && decide (i < 2 ^ 63)
  | .num (.uint u) => decide (2 ^ 63 ≤ u) && decide (u < 2 ^ 64)
  | .num (.float bits) => decide (bits < 2 ^ 64)
  | .str s => wfStr s
  | .arr _ => false
  | .obj fields =>
    !isBytesMarker fields &&
    decide ((filterClass fields).length < 2 ^ 31) &&
    decide (fields.map Prod.fst).Nodup &&
    wfFields fields

def wfFields : List (List Nat × J) → Bool
  | [] => true
  | (k, v) :: rest => wfStr k && wfJ v && wfFields rest

end

theorem wfFields_mem : ∀ {l : List (List Nat × J)}, wfFields l = true →
    ∀ p ∈ l, wfStr p.1 = true ∧ wfJ p.2 = true := by
  intro l
  induction l with
  | nil => intro _ p h; simp at h
  | cons q rest ih =>
    intro h p hp
    cases q with
    | mk k v =>
      rw [wfFields] at h
      simp only [Bool.and_eq_true] at h
      rcases List.mem_cons.1 hp with h1 | h1
      · subst h1
        exact ⟨h.1.1, h.1.2⟩
      · exact ih h.2 p h1

/-
  Mirror of the decoded value of a well-formed tree: the writer sorts the
  non-special members by name and the reader returns them in stream
  order, so the decoded object carries the sorted members; scalar leaves
  map to the reader's value constructors (Int64/UInt64/Double for serde
  numbers). The array case never arises inside the wf fragment.
-/
mutual

def decodedOf : J → Val
  | .null => .null
  | .bool b => .bool b
  | .num (.int i) => .i64 i
  | .num (.uint u) => .u64 u
  | .num (.float bits) => .f64 bits
  | .str s => .str s
  | .arr _ => .null
  | .obj fields => .obj (classNameOf fields) 2 (decodedFields (sortPairs (filterClass fields)))
termination_by v => sizeOf v
decreasing_by
  have h1 := sizeOf_sortPairs (filterClass fields)
  have h2 := sizeOf_filterClass_le fields
  simp only [J.obj.sizeOf_spec]
  omega

def decodedFields : List (List Nat × J) → List (List Nat × Val)
  | [] => []
  | (k, v) :: rest => (k, decodedOf v) :: decodedFields rest
termination_by l => sizeOf l
decreasing_by
  · simp only [List.cons.sizeOf_spec, Prod.mk.sizeOf_spec]
    omega
  · simp only [List.cons.sizeOf_spec]
    omega

end

/-- Declared member BinaryType the writer's type-code and extra-info
columns denote for a member value (the type the reader decodes back). -/
def expectedBinType (v : J) : BinaryType :=
  match v with
  | .null => .primitive .nullT
  | .bool _ => .primitive .boolean
  | .num (.int _) => .primitive .int64
  | .num (.uint _) => .primitive .uint64
  | .num (.float _) => .primitive .double
  | .str _ => .stringB
  | .arr a =>
    if isStringArray a then .stringArray
    else
      match inferPrimitiveArrayType a with
      | some pt => .primitiveArray pt
      | none => .objectArray
  | .obj fields => if isBytesMarker fields then .primitiveArray .byte else .object

/-- Member values whose type-code column is covered by the section
simulation: scalars, strings, primitive-kind arrays, plain objects. -/
def memberShapeOk (v : J) : Bool :=
  match v with
  | .null => true
  | .bool _ => true
  | .num _ => true
  | .str _ => true
  | .arr a => !isStringArray a && (inferPrimitiveArrayType a).isSome
  | .obj fields => !isBytesMarker fields

theorem wfJ_memberShapeOk {v : J} (h : wfJ v = true) : memberShapeOk v = true := by
  cases v with
  | num n => cases n <;> rfl
  | arr a => rw [wfJ] at h; exact absurd h (by simp)
  | obj fields =>
    rw [wfJ] at h
    simp only [Bool.and_eq_true] at h
    rw [memberShapeOk]
    exact h.1.1.1
  | null => rfl
  | bool b => rfl
  | str s => rfl

theorem wfStr_spec {s : List Nat} (h : wfStr s = true) :
    utf8Valid s = true ∧ s.length < 2 ^ 31 := by
  rw [wfStr] at h
  simpa using h

theorem readI32_i32LE {data l : List Nat} {pos : Nat} {id : Int}
    (h : data.drop pos = i32LE id ++ l) :
    readI32 data pos = .ok (toI32 ((id % (2 ^ 32 : Int)).toNat), pos + 4) := by
  have hm : (id % (2 ^ 32 : Int)).toNat < 2 ^ 32 := by
    have h1 : 0 ≤ id % (2 ^ 32 : Int) := Int.emod_nonneg id (by norm_num)
    have h2 : id % (2 ^ 32 : Int) < 2 ^ 32 := Int.emod_lt_of_pos id (by norm_num)
    omega
  rw [i32LE] at h
  exact readI32_chunk h hm

theorem readI64_i64LE {data l : List Nat} {pos : Nat} {id : Int}
    (h : data.drop pos = i64LE id ++ l) :
    readI64 data pos = .ok (toI64 ((id % (2 ^ 64 : Int)).toNat), pos + 8) := by
  have hm : (id % (2 ^ 64 : Int)).toNat < 2 ^ 64 := by
    have h1 : 0 ≤ id % (2 ^ 64 : Int) := Int.emod_nonneg id (by norm_num)
    have h2 : id % (2 ^ 64 : Int) < 2 ^ 64 := Int.emod_lt_of_pos id (by norm_num)
    omega
  rw [i64LE] at h
  exact readI64_chunk h hm

theorem readPrimitiveType_chunk {data l : List Nat} {pos : Nat} (pt : PrimType)
    (h : data.drop pos = writePrimTypeByte pt :: l) :
    readPrimitiveType data pos = .ok (pt, pos + 1) := by
  cases pt <;> rw [readPrimitiveType, readU8_chunk h] <;> rfl

theorem readLpStrings_sim : ∀ (names : List (List Nat)) (data l : List Nat) (pos : Nat),
    data.drop pos = (names.map writeLpStr).flatten ++ l →
    (∀ s ∈ names, wfStr s = true) →
    readLpStrings data names.length pos =
      .ok (names, pos + ((names.map writeLpStr).flatten).length) := by
  intro names
  induction names with
  | nil => intro data l pos h hw; simp [readLpStrings]
  | cons s rest ih =>
    intro data l pos h hw
    simp only [List.map_cons, List.flatten_cons, List.append_assoc] at h
    have hs := hw s (List.mem_cons_self ..)
    obtain ⟨hu, hlen⟩ := wfStr_spec hs
    have h1 := readLpString_chunk (by omega) hu h
    have h2 := dropChunk h
    have h3 := ih data l (pos + (writeLpStr s).length) h2
      (fun t ht => hw t (List.mem_cons.2 (Or.inr ht)))
    simp only [List.length_cons, readLpStrings, h1, ok_bind, h3]
    simp only [List.map_cons, List.flatten_cons, List.length_append]
    congr 2
    omega

theorem readRawBytes_sim : ∀ (codes data l : List Nat) (pos : Nat),
    data.drop pos = codes ++ l →
    readRawBytes data codes.length pos = .ok (codes, pos + codes.length) := by
  intro codes
  induction codes with
  | nil => intro data l pos h; simp [readRawBytes]
  | cons c rest ih =>
    intro data l pos h
    simp only [List.cons_append] at h
    have h1 := readU8_chunk h
    have h2 := (dropCons h).2
    have h3 := ih data l (pos + 1) h2
    simp only [List.length_cons, readRawBytes, h1, ok_bind, h3]
    congr 2
    omega

theorem decodeBinTypes_sim : ∀ (vs : List J) (data l : List Nat) (pos : Nat),
    data.drop pos = (vs.map extraTypeBytes).flatten ++ l →
    (∀ v ∈ vs, memberShapeOk v = true) →
    decodeBinTypes data (vs.map binTypeCode) pos =
      .ok (vs.map expectedBinType, pos + ((vs.map extraTypeBytes).flatten).length) := by
  intro vs
  induction vs with
  | nil => intro data l pos h hs; simp [decodeBinTypes]
  | cons v rest ih =>
    intro data l pos h hs
    simp only [List.map_cons, List.flatten_cons, List.append_assoc] at h
    have hv := hs v (List.mem_cons_self ..)
    have hrest := fun t ht => hs t (List.mem_cons.2 (Or.inr ht))
    have hdrop := dropChunk h
    have hih := ih data l (pos + (extraTypeBytes v).length) hdrop hrest
    match v with
    | .null =>
      have hpt := readPrimitiveType_chunk .nullT (by simpa [extraTypeBytes, maybePrimType] using h)
      simp only [List.map_cons, decodeBinTypes, binTypeCode, decodeOneBinType, hpt, ok_bind]
      rw [show pos + (extraTypeBytes J.null).length = pos + 1 from rfl] at hih
      simp only [hih, ok_bind]
      simp only [List.flatten_cons, List.length_append, expectedBinType]
      congr 2
      simp [extraTypeBytes, maybePrimType]
      omega
    | .bool b =>
      have hpt := readPrimitiveType_chunk .boolean (by simpa [extraTypeBytes, maybePrimType] using h)
      simp only [List.map_cons, decodeBinTypes, binTypeCode, decodeOneBinType, hpt, ok_bind]
      rw [show pos + (extraTypeBytes (J.bool b)).length = pos + 1 from rfl] at hih
      simp only [hih, ok_bind]
      simp only [List.flatten_cons, List.length_append, expectedBinType]
      congr 2
      simp [extraTypeBytes, maybePrimType]
      omega
    | .num (.int i) =>
      have hpt := readPrimitiveType_chunk .int64 (by simpa [extraTypeBytes, maybePrimType] using h)
      simp only [List.map_cons, decodeBinTypes, binTypeCode, decodeOneBinType, hpt, ok_bind]
      rw [show pos + (extraTypeBytes (J.num (.int i))).length = pos + 1 from rfl] at hih
      simp only [hih, ok_bind]
      simp only [List.flatten_cons, List.length_append, expectedBinType]
      congr 2
      simp [extraTypeBytes, maybePrimType]
      omega
    | .num (.uint u) =>
      have hpt := readPrimitiveType_chunk .uint64 (by simpa [extraTypeBytes, maybePrimType] using h)
      simp only [List.map_cons, decodeBinTypes, binTypeCode, decodeOneBinType, hpt, ok_bind]
      rw [show pos + (extraTypeBytes (J.num (.uint u))).length = pos + 1 from rfl] at hih
      simp only [hih, ok_bind]
      simp only [List.flatten_cons, List.length_append, expectedBinType]
      congr 2
      simp [extraTypeBytes, maybePrimType]
      omega
    | .num (.float bits) =>
      have hpt := readPrimitiveType_chunk .double (by simpa [extraTypeBytes, maybePrimType] using h)
      simp only [List.map_cons, decodeBinTypes, binTypeCode, decodeOneBinType, hpt, ok_bind]
      rw [show pos + (extraTypeBytes (J.num (.float bits))).length = pos + 1 from rfl] at hih
      simp only [hih, ok_bind]
      simp only [List.flatten_cons, List.length_append, expectedBinType]
      congr 2
      simp [extraTypeBytes, maybePrimType]
      omega
    | .str s =>
      simp only [List.map_cons, decodeBinTypes, binTypeCode, decodeOneBinType, ok_bind]
      rw [show pos + (extraTypeBytes (J.str s)).length = pos from rfl] at hih
      simp only [hih, ok_bind]
      simp only [List.flatten_cons, List.length_append, expectedBinType]
      congr 2
      simp [extraTypeBytes, maybePrimType]
    | .obj fields =>
      rw [memberShapeOk] at hv
      simp only [Bool.not_eq_eq_eq_not, Bool.not_true] at hv
      simp only [List.map_cons, decodeBinTypes, binTypeCode, hv, Bool.false_eq_true,
        if_false, decodeOneBinType, ok_bind]
      rw [show pos + (extraTypeBytes (J.obj fields)).length = pos + 0 from by
        simp [extraTypeBytes, maybePrimType, hv]] at hih
      rw [show pos + 0 = pos from rfl] at hih
      simp only [hih, ok_bind]
      simp only [List.flatten_cons, List.length_append, expectedBinType, hv, Bool.false_eq_true,
        if_false]
      congr 2
      simp [extraTypeBytes, maybePrimType, hv]
    | .arr a =>
      rw [memberShapeOk] at hv
      simp only [Bool.and_eq_true, Bool.not_eq_eq_eq_not, Bool.not_true] at hv
      obtain ⟨hstr, hsome⟩ := hv
      obtain ⟨pt, hpt⟩ := Option.isSome_iff_exists.1 hsome
      have hextra : extraTypeBytes (.arr a) = [writePrimTypeByte pt] := by
        simp [extraTypeBytes, maybePrimType, hpt]
      have hrt := readPrimitiveType_chunk pt (by
        rw [hextra] at h
        simpa using h)
      simp only [List.map_cons, decodeBinTypes, binTypeCode, hstr, Bool.false_eq_true,
        if_false, hsome, if_true, decodeOneBinType, hrt, ok_bind]
      rw [show (extraTypeBytes (J.arr a)).length = 1 from by rw [hextra]; rfl] at hih
      simp only [hih, ok_bind]
      simp only [List.flatten_cons, List.length_append, expectedBinType, hstr, Bool.false_eq_true,
        if_false, hpt, hextra]
      congr 2
      simp
      omega

/-- The payload (after the record tag) of the ClassWithMembersAndTypes
record the Writer emits for a member list `pairs` already sorted and
filtered: object id, class name, member count, the three parallel
member-metadata sections, the DynObject library id, and the member
values. Both Writer::write_object and Writer::write_root produce byte
runs of this shape. -/
def classPayload (id : Int) (cn : List Nat) (pairs : List (List Nat × J)) (vbs : List Nat) :
    List Nat :=
  i32LE id ++ writeLpStr cn ++ i32LE (pairs.length : Int) ++
  ((pairs.map fun p => p.1).map writeLpStr).flatten ++
  ((pairs.map fun p => p.2).map binTypeCode) ++
  ((pairs.map fun p => p.2).map extraTypeBytes).flatten ++
  i32LE 2 ++ vbs

theorem len_i32LE (v : Int) : (i32LE v).length = 4 := by
  rw [i32LE]; exact length_natToLE 4 _

theorem simRCWMAT (pairs : List (List Nat × J)) (cn : List Nat) (id : Int) (vbs : List Nat)
    {mv : List (List Nat × Val)} (FR : Nat)
    (hcn : wfStr cn = true) (hcount : pairs.length < 2 ^ 31)
    (hnames : ∀ p ∈ pairs, wfStr p.1 = true)
    (hshape : ∀ p ∈ pairs, memberShapeOk p.2 = true)
    (HM : ∀ (data l : List Nat) (pos : Nat) (ctx : Ctx) (fr : Nat),
      data.drop pos = vbs ++ l → FR ≤ fr →
      ∃ ctx₂, readMembersTyped fr data (pairs.map fun p => (p.1, expectedBinType p.2)) pos ctx =
        .ok (mv, pos + vbs.length, ctx₂)) :
    ∀ (data l : List Nat) (pos : Nat) (ctx : Ctx) (fr : Nat),
      data.drop pos = classPayload id cn pairs vbs ++ l →
      FR + 1 ≤ fr →
      ∃ ctx₂, readClassWithMembersAndTypes fr data pos ctx =
        .ok (toI32 ((id % (2 ^ 32 : Int)).toNat), .obj cn 2 mv,
             pos + (classPayload id cn pairs vbs).length, ctx₂) := by
  intro data l pos ctx fr h hfr
  obtain ⟨g, rfl⟩ : ∃ g, fr = g + 1 := ⟨fr - 1, by omega⟩
  rw [classPayload] at h
  simp only [List.append_assoc] at h
  have e1 := readI32_i32LE h
  have d1 := dropChunk h
  rw [len_i32LE] at d1
  obtain ⟨hu_cn, hlen_cn⟩ := wfStr_spec hcn
  have e2 := readLpString_chunk (by omega) hu_cn d1
  have d2 := dropChunk d1
  have hc32 : pairs.length < 2 ^ 32 := by omega
  rw [i32LE_ofNat hc32] at d2
  have e3 := readI32_chunk d2 hc32
  have d3 := dropChunk d2
  rw [length_natToLE] at d3
  have e4 := readLpStrings_sim (pairs.map fun p => p.1) data _ _ d3 (by
    intro s hs
    obtain ⟨p, hp, rfl⟩ := List.mem_map.1 hs
    exact hnames p hp)
  rw [List.length_map] at e4
  have d4 := dropChunk d3
  have e5 := readRawBytes_sim ((pairs.map fun p => p.2).map binTypeCode) data _ _ d4
  rw [List.length_map, List.length_map] at e5
  have d5 := dropChunk d4
  rw [List.length_map, List.length_map] at d5
  have e6 := decodeBinTypes_sim (pairs.map fun p => p.2) data _ _ d5 (by
    intro v hv
    obtain ⟨p, hp, rfl⟩ := List.mem_map.1 hv
    exact hshape p hp)
  have d6 := dropChunk d5
  have h2le : i32LE 2 = natToLE 4 2 := i32LE_ofNat (by norm_num)
  rw [h2le] at d6
  have e7 := readI32_chunk d6 (by norm_num)
  have d7 := dropChunk d6
  rw [length_natToLE] at d7
  obtain ⟨ctx₂, hM⟩ := HM data l _ ctx g d7 (by omega)
  refine ⟨{ ctx₂ with
      classMeta := alPut ctx₂.classMeta (toI32 ((id % (2 ^ 32 : Int)).toNat))
        ⟨cn, 2, pairs.map fun p => p.1, some ((pairs.map fun p => p.2).map expectedBinType)⟩ }, ?_⟩
  rw [readClassWithMembersAndTypes, e1]
  simp only [ok_bind]
  rw [e2]
  simp only [ok_bind]
  rw [e3]
  simp only [ok_bind]
  rw [usizeOfI32_ofNat hcount, e4]
  simp only [ok_bind]
  rw [e5]
  simp only [ok_bind]
  rw [e6]
  simp only [ok_bind]
  rw [e7]
  simp only [ok_bind]
  have hzip : ((pairs.map fun p => p.1).zip ((pairs.map fun p => p.2).map expectedBinType)) =
      pairs.map fun p => (p.1, expectedBinType p.2) := by
    rw [List.map_map, List.zip_map']
    rfl
  rw [hzip, hM]
  simp only [ok_bind]
  have ht2 : toI32 2 = (2 : Int) := by
    rw [toI32_ofNat (by norm_num)]
    norm_num
  rw [ht2]
  simp only [Except.ok.injEq, Prod.mk.injEq]
  refine ⟨trivial, trivial, ?_, trivial⟩
  rw [classPayload]
  simp only [List.length_append, len_i32LE, length_natToLE, List.length_map]
  omega

theorem length_insertPair (p : List Nat × J) :
    ∀ l : List (List Nat × J), (insertPair p l).length = l.length + 1 := by
  intro l
  induction l with
  | nil => rfl
  | cons q rest ih =>
    rw [insertPair]
    split
    · rfl
    · simp only [List.length_cons, ih]

theorem length_sortPairs : ∀ l : List (List Nat × J), (sortPairs l).length = l.length := by
  intro l
  induction l with
  | nil => rfl
  | cons p rest ih => rw [sortPairs, length_insertPair, ih]; rfl

theorem jGet_mem {fields : List (List Nat × J)} {k : List Nat} {v : J}
    (h : jGet fields k = some v) : (k, v) ∈ fields := by
  rw [jGet] at h
  obtain ⟨p, hp, hv⟩ := Option.map_eq_some'.1 h
  have hmem := List.mem_of_find?_eq_some hp
  have hpred := List.find?_some hp
  have hk : p.1 = k := by simpa using hpred
  cases p with
  | mk a b =>
    simp only at hk hv
    subst hk
    subst hv
    exact hmem

theorem classNameOf_wf {fields : List (List Nat × J)} (hf : wfFields fields = true) :
    wfStr (classNameOf fields) = true := by
  rw [classNameOf]
  cases hg : jGet fields (strBytes ("$class")) with
  | none =>
    simp only [Option.bind]
    decide
  | some v =>
    cases v with
    | str s =>
      have hmem := jGet_mem hg
      have := (wfFields_mem hf _ hmem).2
      rw [wfJ] at this
      simpa [Option.bind, J.asStr] using this
    | null => simp only [Option.bind, J.asStr]; decide
    | bool b => simp only [Option.bind, J.asStr]; decide
    | num m => simp only [Option.bind, J.asStr]; decide
    | arr a => simp only [Option.bind, J.asStr]; decide
    | obj f2 => simp only [Option.bind, J.asStr]; decide

theorem simValue : ∀ (n : Nat) (v : J), sizeOf v ≤ n → wfJ v = true →
    ∀ (st : WState) (fw : Nat), 3 * sizeOf v ≤ fw →
    ∃ (bs : List Nat) (st₂ : WState), writeMemberValue fw v st = .ok (bs, st₂) ∧
      ∀ (data l : List Nat) (pos : Nat) (ctx : Ctx) (fr : Nat),
        data.drop pos = bs ++ l → 3 * sizeOf v ≤ fr →
        ∃ ctx₂, readMemberOfType fr (expectedBinType v) data pos ctx =
          .ok (decodedOf v, pos + bs.length, ctx₂) := by
  intro n
  induction n with
  | zero =>
    intro v hv
    have := sizeOf_pos_j v
    omega
  | succ n ih =>
    intro v hv hwf st fw hfw
    have hvpos := sizeOf_pos_j v
    obtain ⟨fw', rfl⟩ : ∃ k, fw = k + 1 := ⟨fw - 1, by omega⟩
    match v, hv, hwf, hfw, hvpos with
    | .null, hv, hwf, hfw, hvpos =>
      refine ⟨[], st, rfl, ?_⟩
      intro data l pos ctx fr h hfr
      obtain ⟨fr', rfl⟩ : ∃ k, fr = k + 1 := ⟨fr - 1, by omega⟩
      refine ⟨ctx, ?_⟩
      simp [readMemberOfType, expectedBinType, readInlinePrimitive, decodedOf, ok_bind]
    | .bool b, hv, hwf, hfw, hvpos =>
      refine ⟨[if b then 1 else 0], st, rfl, ?_⟩
      intro data l pos ctx fr h hfr
      obtain ⟨fr', rfl⟩ : ∃ k, fr = k + 1 := ⟨fr - 1, by omega⟩
      have h8 := readU8_chunk (show data.drop pos = (if b then 1 else 0) :: l by
        simpa using h)
      refine ⟨ctx, ?_⟩
      simp only [expectedBinType, readMemberOfType, readInlinePrimitive, h8, ok_bind]
      simp only [decodedOf]
      cases b <;> simp
    | .num (.int i), hv, hwf, hfw, hvpos =>
      refine ⟨writeI64 i, st, rfl, ?_⟩
      intro data l pos ctx fr h hfr
      obtain ⟨fr', rfl⟩ : ∃ k, fr = k + 1 := ⟨fr - 1, by omega⟩
      rw [wfJ] at hwf
      simp only [Bool.and_eq_true, decide_eq_true_eq] at hwf
      have h64 := readI64_i64LE (show data.drop pos = i64LE i ++ l from h)
      refine ⟨ctx, ?_⟩
      simp only [expectedBinType, readMemberOfType, readInlinePrimitive, h64, ok_bind]
      rw [toI64_roundtrip hwf.1 hwf.2]
      simp only [decodedOf, writeI64, i64LE, length_natToLE]
    | .num (.uint u), hv, hwf, hfw, hvpos =>
      refine ⟨writeU64 u, st, rfl, ?_⟩
      intro data l pos ctx fr h hfr
      obtain ⟨fr', rfl⟩ : ∃ k, fr = k + 1 := ⟨fr - 1, by omega⟩
      rw [wfJ] at hwf
      simp only [Bool.and_eq_true, decide_eq_true_eq] at hwf
      have h64 := readU64_chunk (show data.drop pos = natToLE 8 u ++ l from h) hwf.2
      refine ⟨ctx, ?_⟩
      simp only [expectedBinType, readMemberOfType, readInlinePrimitive, h64, ok_bind]
      simp only [decodedOf, writeU64, length_natToLE]
    | .num (.float bits), hv, hwf, hfw, hvpos =>
      refine ⟨writeF64bits bits, st, rfl, ?_⟩
      intro data l pos ctx fr h hfr
      obtain ⟨fr', rfl⟩ : ∃ k, fr = k + 1 := ⟨fr - 1, by omega⟩
      rw [wfJ] at hwf
      simp only [decide_eq_true_eq] at hwf
      have h64 := readU64_chunk (show data.drop pos = natToLE 8 bits ++ l from h) hwf
      refine ⟨ctx, ?_⟩
      simp only [expectedBinType, readMemberOfType, readInlinePrimitive, h64, ok_bind]
      simp only [decodedOf, writeF64bits, length_natToLE]
    | .str s, hv, hwf, hfw, hvpos =>
      refine ⟨[6] ++ writeI32 st.nextStrId ++ writeLpStr s,
        { st with nextStrId := st.nextStrId + 1 }, rfl, ?_⟩
      intro data l pos ctx fr h hfr
      obtain ⟨fr', rfl⟩ : ∃ k, fr = k + 1 := ⟨fr - 1, by omega⟩
      rw [wfJ] at hwf
      obtain ⟨hu, hlen⟩ := wfStr_spec hwf
      have h' : data.drop pos = 6 :: (i32LE st.nextStrId ++ (writeLpStr s ++ l)) := by
        simpa [writeI32, List.append_assoc] using h
      have hp := peek_chunk h'
      have d1 := (dropCons h').2
      have eI := readI32_i32LE d1
      have d2 := dropChunk d1
      rw [len_i32LE] at d2
      have eS := readLpString_chunk (by omega) hu d2
      refine ⟨{ ctx with
        strings := alPut ctx.strings (toI32 ((st.nextStrId % (2 ^ 32 : Int)).toNat)) s }, ?_⟩
      simp only [expectedBinType, readMemberOfType, readNextStringLike, hp]
      simp only [reduceIte, eI, ok_bind, eS]
      simp only [decodedOf, List.length_append, List.length_cons, List.length_nil, writeI32,
        len_i32LE]
      simp only [Except.ok.injEq, Prod.mk.injEq]
      refine ⟨trivial, ?_, trivial⟩
      omega
    | .obj fields, hv, hwf, hfw, hvpos =>
      rw [wfJ] at hwf
      simp only [Bool.and_eq_true, Bool.not_eq_eq_eq_not, Bool.not_true, decide_eq_true_eq] at hwf
      obtain ⟨⟨⟨hmark, hcnt⟩, hnodup⟩, hf⟩ := hwf
      have hsz : sizeOf (J.obj fields) = 1 + sizeOf fields := by simp
      obtain ⟨fw'', rfl⟩ : ∃ k, fw' = k + 1 := ⟨fw' - 1, by omega⟩
      have hszf : sizeOf (sortPairs (filterClass fields)) ≤ sizeOf fields := by
        rw [sizeOf_sortPairs]
        exact sizeOf_filterClass_le fields
      have HP : ∀ p ∈ sortPairs (filterClass fields),
          wfStr p.1 = true ∧ wfJ p.2 = true ∧ sizeOf p.2 ≤ n := by
        intro p hp
        have hmemf := mem_filterClass (mem_sortPairs hp)
        have hw := wfFields_mem hf p hmemf
        have hslt := sizeOf_snd_lt hmemf
        exact ⟨hw.1, hw.2, by omega⟩
      have simM : ∀ (ps : List (List Nat × J)),
          (∀ p ∈ ps, wfStr p.1 = true ∧ wfJ p.2 = true ∧ sizeOf p.2 ≤ n) →
          ∀ (st' : WState) (gw : Nat), 3 * sizeOf ps ≤ gw →
          ∃ (bs : List Nat) (st₃ : WState), writeMembersVals gw ps st' = .ok (bs, st₃) ∧
            ∀ (data l : List Nat) (pos : Nat) (ctx : Ctx) (fr : Nat),
              data.drop pos = bs ++ l → 3 * sizeOf ps ≤ fr →
              ∃ ctx₂, readMembersTyped fr data (ps.map fun p => (p.1, expectedBinType p.2))
                  pos ctx = .ok (decodedFields ps, pos + bs.length, ctx₂) := by
        intro ps
        induction ps with
        | nil =>
          intro _ st' gw hgw
          obtain ⟨gw', rfl⟩ : ∃ k, gw = k + 1 := ⟨gw - 1, by simp at hgw; omega⟩
          refine ⟨[], st', rfl, ?_⟩
          intro data l pos ctx fr h hfr
          obtain ⟨fr', rfl⟩ : ∃ k, fr = k + 1 := ⟨fr - 1, by simp at hfr; omega⟩
          refine ⟨ctx, ?_⟩
          simp [readMembersTyped, decodedFields]
        | cons p rest ihp =>
          intro hps st' gw hgw
          obtain ⟨k, v0⟩ := p
          have hsp : sizeOf ((k, v0) :: rest) = 1 + (1 + sizeOf k + sizeOf v0) + sizeOf rest := by
            simp
          have hv0pos := sizeOf_pos_j v0
          obtain ⟨gw', rfl⟩ : ∃ m, gw = m + 1 := ⟨gw - 1, by omega⟩
          have hhead := hps (k, v0) (List.mem_cons_self ..)
          obtain ⟨bs₁, st₁, hw₁, hr₁⟩ :=
            ih v0 hhead.2.2 hhead.2.1 st' gw' (by omega)
          obtain ⟨bs₂, st₃, hw₂, hr₂⟩ :=
            ihp (fun q hq => hps q (List.mem_cons.2 (Or.inr hq))) st₁ gw' (by omega)
          refine ⟨bs₁ ++ bs₂, st₃, ?_, ?_⟩
          · rw [writeMembersVals, hw₁]
            simp only [ok_bind]
            rw [hw₂]
            rfl
          · intro data l pos ctx fr h hfr
            obtain ⟨fr', rfl⟩ : ∃ m, fr = m + 1 := ⟨fr - 1, by omega⟩
            rw [List.append_assoc] at h
            obtain ⟨c₁, hR1⟩ := hr₁ data (bs₂ ++ l) pos ctx fr' h (by omega)
            have d := dropChunk h
            obtain ⟨c₂, hR2⟩ := hr₂ data l (pos + bs₁.length) c₁ fr' d (by omega)
            refine ⟨c₂, ?_⟩
            simp only [List.map_cons, readMembersTyped, hR1, ok_bind, hR2]
            simp only [decodedFields, List.length_append, Except.ok.injEq, Prod.mk.injEq]
            refine ⟨trivial, ?_, trivial⟩
            omega
      obtain ⟨vbs, st₂, hwv, HMprop⟩ :=
        simM (sortPairs (filterClass fields)) HP { st with nextId := st.nextId + 1 }
          fw'' (by omega)
      have hcn : wfStr (classNameOf fields) = true := classNameOf_wf hf
      have hcount : (sortPairs (filterClass fields)).length < 2 ^ 31 := by
        rw [length_sortPairs]
        exact hcnt
      have hnames : ∀ p ∈ sortPairs (filterClass fields), wfStr p.1 = true :=
        fun p hp => (HP p hp).1
      have hshape : ∀ p ∈ sortPairs (filterClass fields), memberShapeOk p.2 = true :=
        fun p hp => wfJ_memberShapeOk (HP p hp).2.1
      refine ⟨[5] ++ classPayload st.nextId (classNameOf fields) (sortPairs (filterClass fields))
          vbs, st₂, ?_, ?_⟩
      · rw [writeMemberValue]
        rw [hmark]
        simp only [Bool.false_eq_true, if_false]
        rw [writeObject, hwv]
        simp only [ok_bind]
        simp only [classPayload, writeI32, List.map_map]
        rfl
      · intro data l pos ctx fr h hfr
        obtain ⟨fr', rfl⟩ : ∃ m, fr = m + 1 := ⟨fr - 1, by omega⟩
        obtain ⟨fr'', rfl⟩ : ∃ m, fr' = m + 1 := ⟨fr' - 1, by omega⟩
        have h' : data.drop pos =
            5 :: (classPayload st.nextId (classNameOf fields) (sortPairs (filterClass fields))
              vbs ++ l) := by
          simpa using h
        have hp5 := peek_chunk h'
        have d := (dropCons h').2
        obtain ⟨ctx₂, hRC⟩ := simRCWMAT (sortPairs (filterClass fields)) (classNameOf fields)
          st.nextId vbs (3 * sizeOf (sortPairs (filterClass fields))) hcn hcount hnames hshape
          HMprop data l (pos + 1) ctx fr'' d (by omega)
        refine ⟨{ ctx₂ with objects := alPut ctx₂.objects (toI32 ((st.nextId % (2 ^ 32 : Int)).toNat)) (Val.obj (classNameOf fields) 2 (decodedFields (sortPairs (filterClass fields)))) }, ?_⟩
        simp only [expectedBinType, hmark, Bool.false_eq_true, if_false]
        simp only [readMemberOfType]
        rw [readNextObjectLike, hp5]
        simp only [reduceIte, hRC, ok_bind]
        simp only [decodedOf, List.length_append, List.length_cons, List.length_nil,
          Except.ok.injEq, Prod.mk.injEq]
        refine ⟨trivial, ?_, trivial⟩
        omega

theorem simMembersVals : ∀ (ps : List (List Nat × J)),
    (∀ p ∈ ps, wfStr p.1 = true ∧ wfJ p.2 = true) →
    ∀ (st : WState) (gw : Nat), 3 * sizeOf ps ≤ gw →
    ∃ (bs : List Nat) (st₃ : WState), writeMembersVals gw ps st = .ok (bs, st₃) ∧
      ∀ (data l : List Nat) (pos : Nat) (ctx : Ctx) (fr : Nat),
        data.drop pos = bs ++ l → 3 * sizeOf ps ≤ fr →
        ∃ ctx₂, readMembersTyped fr data (ps.map fun p => (p.1, expectedBinType p.2)) pos ctx =
          .ok (decodedFields ps, pos + bs.length, ctx₂) := by
  intro ps
  induction ps with
  | nil =>
    intro _ st gw hgw
    obtain ⟨gw', rfl⟩ : ∃ k, gw = k + 1 := ⟨gw - 1, by simp at hgw; omega⟩
    refine ⟨[], st, rfl, ?_⟩
    intro data l pos ctx fr h hfr
    obtain ⟨fr', rfl⟩ : ∃ k, fr = k + 1 := ⟨fr - 1, by simp at hfr; omega⟩
    refine ⟨ctx, ?_⟩
    simp [readMembersTyped, decodedFields]
  | cons p rest ihp =>
    intro hps st gw hgw
    obtain ⟨k, v0⟩ := p
    have hsp : sizeOf ((k, v0) :: rest) = 1 + (1 + sizeOf k + sizeOf v0) + sizeOf rest := by
      simp
    have hv0pos := sizeOf_pos_j v0
    obtain ⟨gw', rfl⟩ : ∃ m, gw = m + 1 := ⟨gw - 1, by omega⟩
    have hhead := hps (k, v0) (List.mem_cons_self ..)
    obtain ⟨bs₁, st₁, hw₁, hr₁⟩ :=
      simValue (sizeOf v0) v0 (Nat.le_refl _) hhead.2 st gw' (by omega)
    obtain ⟨bs₂, st₃, hw₂, hr₂⟩ :=
      ihp (fun q hq => hps q (List.mem_cons.2 (Or.inr hq))) st₁ gw' (by omega)
    refine ⟨bs₁ ++ bs₂, st₃, ?_, ?_⟩
    · rw [writeMembersVals, hw₁]
      simp only [ok_bind]
      rw [hw₂]
      rfl
    · intro data l pos ctx fr h hfr
      obtain ⟨fr', rfl⟩ : ∃ m, fr = m + 1 := ⟨fr - 1, by omega⟩
      rw [List.append_assoc] at h
      obtain ⟨c₁, hR1⟩ := hr₁ data (bs₂ ++ l) pos ctx fr' h (by omega)
      have d := dropChunk h
      obtain ⟨c₂, hR2⟩ := hr₂ data l (pos + bs₁.length) c₁ fr' d (by omega)
      refine ⟨c₂, ?_⟩
      simp only [List.map_cons, readMembersTyped, hR1, ok_bind, hR2]
      simp only [decodedFields, List.length_append, Except.ok.injEq, Prod.mk.injEq]
      refine ⟨trivial, ?_, trivial⟩
      omega

/-- The root value the Reader decodes back from a Writer-produced root
record: an object root keeps its own (sorted, `$class`-filtered) members,
any other scalar root appears as the single member "value". -/
def decodedRoot (rc : List Nat) (tree : J) : Val :=
  match tree with
  | .obj fields => .obj rc 2 (decodedFields (sortPairs (filterClass fields)))
  | v => .obj rc 2 [(strBytes ("value"), decodedOf v)]

theorem simRootScalarReader (rc : List Nat) (v : J) (id : Int) (hrc : wfStr rc = true)
    (vbs : List Nat)
    (hrv : ∀ (data l : List Nat) (pos : Nat) (ctx : Ctx) (fr : Nat),
      data.drop pos = vbs ++ l → 3 * sizeOf v ≤ fr →
      ∃ ctx₂, readMemberOfType fr (expectedBinType v) data pos ctx =
        .ok (decodedOf v, pos + vbs.length, ctx₂))
    (hdec : decodedRoot rc v = .obj rc 2 [(strBytes ("value"), decodedOf v)])
    (hshape : memberShapeOk v = true) :
    ∀ (data l : List Nat) (pos : Nat) (ctx : Ctx) (fr : Nat),
      data.drop pos = classPayload id rc [(strBytes ("value"), v)] vbs ++ l →
      3 * sizeOf v + 3 ≤ fr →
      ∃ ctx₂, readClassWithMembersAndTypes fr data pos ctx =
        .ok (toI32 ((id % (2 ^ 32 : Int)).toNat), decodedRoot rc v,
             pos + (classPayload id rc [(strBytes ("value"), v)] vbs).length, ctx₂) := by
  intro data l pos ctx fr h hfr
  have HM : ∀ (data₁ l₁ : List Nat) (pos₁ : Nat) (ctx₁ : Ctx) (fr₁ : Nat),
      data₁.drop pos₁ = vbs ++ l₁ → 3 * sizeOf v + 2 ≤ fr₁ →
      ∃ ctx₂, readMembersTyped fr₁ data₁
          ([(strBytes ("value"), v)].map fun p => (p.1, expectedBinType p.2)) pos₁ ctx₁ =
        .ok (decodedFields [(strBytes ("value"), v)], pos₁ + vbs.length, ctx₂) := by
    intro data₁ l₁ pos₁ ctx₁ fr₁ h₁ hfr₁
    obtain ⟨m, rfl⟩ : ∃ m, fr₁ = m + 1 := ⟨fr₁ - 1, by omega⟩
    obtain ⟨m₁, rfl⟩ : ∃ k, m = k + 1 := ⟨m - 1, by omega⟩
    obtain ⟨c₁, hR⟩ := hrv data₁ l₁ pos₁ ctx₁ (m₁ + 1) h₁ (by omega)
    refine ⟨c₁, ?_⟩
    simp only [List.map_cons, List.map_nil, readMembersTyped, hR, ok_bind]
    simp [decodedFields]
  obtain ⟨ctx₂, hRC⟩ := simRCWMAT [(strBytes ("value"), v)] rc id vbs (3 * sizeOf v + 2)
    hrc (by simp)
    (by
      intro p hp
      rw [List.mem_singleton] at hp
      subst hp
      show wfStr (strBytes ("value")) = true
      decide)
    (by
      intro p hp
      rw [List.mem_singleton] at hp
      subst hp
      exact hshape)
    HM data l pos ctx fr h (by omega)
  refine ⟨ctx₂, ?_⟩
  rw [hRC, hdec]
  have hdf : decodedFields [(strBytes ("value"), v)] = [(strBytes ("value"), decodedOf v)] := by
    simp [decodedFields]
  rw [hdf]

theorem simRootRecord (rc : List Nat) (tree : J) (hrc : wfStr rc = true)
    (hwf : wfJ tree = true) :
    ∀ (st : WState) (fw : Nat), 3 * sizeOf tree + 3 ≤ fw →
    ∃ (payload : List Nat) (st₂ : WState), writeRoot fw rc tree st = .ok (5 :: payload, st₂) ∧
      ∀ (data l : List Nat) (pos : Nat) (ctx : Ctx) (fr : Nat),
        data.drop pos = payload ++ l → 3 * sizeOf tree + 3 ≤ fr →
        ∃ ctx₂, readClassWithMembersAndTypes fr data pos ctx =
          .ok (toI32 ((st.nextId % (2 ^ 32 : Int)).toNat), decodedRoot rc tree,
               pos + payload.length, ctx₂) := by
  intro st fw hfw
  match tree, hwf, hfw with
  | .obj fields, hwf, hfw =>
    rw [wfJ] at hwf
    simp only [Bool.and_eq_true, Bool.not_eq_eq_eq_not, Bool.not_true, decide_eq_true_eq] at hwf
    obtain ⟨⟨⟨hmark, hcnt⟩, hnodup⟩, hf⟩ := hwf
    have hsz : sizeOf (J.obj fields) = 1 + sizeOf fields := by simp
    have hszf : sizeOf (sortPairs (filterClass fields)) ≤ sizeOf fields := by
      rw [sizeOf_sortPairs]
      exact sizeOf_filterClass_le fields
    have HP : ∀ p ∈ sortPairs (filterClass fields), wfStr p.1 = true ∧ wfJ p.2 = true := by
      intro p hp
      exact wfFields_mem hf p (mem_filterClass (mem_sortPairs hp))
    obtain ⟨vbs, st₂, hwv, HMprop⟩ :=
      simMembersVals (sortPairs (filterClass fields)) HP { st with nextId := st.nextId + 1 }
        fw (by omega)
    have hcount : (sortPairs (filterClass fields)).length < 2 ^ 31 := by
      rw [length_sortPairs]
      exact hcnt
    refine ⟨classPayload st.nextId rc (sortPairs (filterClass fields)) vbs, st₂, ?_, ?_⟩
    · rw [writeRoot]
      simp only []
      rw [hwv]
      simp only [ok_bind]
      simp only [classPayload, writeI32, List.map_map]
      rfl
    · intro data l pos ctx fr h hfr
      obtain ⟨ctx₂, hRC⟩ := simRCWMAT (sortPairs (filterClass fields)) rc st.nextId vbs
        (3 * sizeOf (sortPairs (filterClass fields))) hrc hcount
        (fun p hp => (HP p hp).1) (fun p hp => wfJ_memberShapeOk (HP p hp).2)
        HMprop data l pos ctx fr h (by omega)
      refine ⟨ctx₂, ?_⟩
      rw [hRC]
      rfl
  | .arr a, hwf, hfw =>
    rw [wfJ] at hwf
    exact absurd hwf (by simp)
  | .null, hwf, hfw =>
    have h1 : sizeOf (J.null) = 1 := by simp
    obtain ⟨vbs, st₂, hwv, hrv⟩ := simValue (sizeOf (J.null)) (J.null) (Nat.le_refl _) hwf
      { st with nextId := st.nextId + 1 } fw (by omega)
    refine ⟨classPayload st.nextId rc [(strBytes ("value"), J.null)] vbs, st₂, ?_, ?_⟩
    · rw [writeRoot]
      simp only []
      rw [hwv]
      simp only [ok_bind]
      simp only [classPayload, writeI32, List.map_cons, List.map_nil, List.flatten_cons,
        List.flatten_nil, List.append_nil, List.append_assoc, List.cons_append, List.nil_append,
        List.length_cons, List.length_nil, Nat.zero_add, Nat.cast_one]
      all_goals (intro x hx; exact J.noConfusion hx)
    · exact simRootScalarReader rc (J.null) st.nextId hrc vbs hrv rfl rfl
  | .bool b, hwf, hfw =>
    have h1 : sizeOf (J.bool b) = 2 := by simp
    obtain ⟨vbs, st₂, hwv, hrv⟩ := simValue (sizeOf (J.bool b)) (J.bool b) (Nat.le_refl _) hwf
      { st with nextId := st.nextId + 1 } fw (by omega)
    refine ⟨classPayload st.nextId rc [(strBytes ("value"), J.bool b)] vbs, st₂, ?_, ?_⟩
    · rw [writeRoot]
      simp only []
      rw [hwv]
      simp only [ok_bind]
      simp only [classPayload, writeI32, List.map_cons, List.map_nil, List.flatten_cons,
        List.flatten_nil, List.append_nil, List.append_assoc, List.cons_append, List.nil_append,
        List.length_cons, List.length_nil, Nat.zero_add, Nat.cast_one]
      all_goals (intro x hx; exact J.noConfusion hx)
    · exact simRootScalarReader rc (J.bool b) st.nextId hrc vbs hrv rfl rfl
  | .num m, hwf, hfw =>
    have h1 : 1 ≤ sizeOf (J.num m) := sizeOf_pos_j _
    obtain ⟨vbs, st₂, hwv, hrv⟩ := simValue (sizeOf (J.num m)) (J.num m) (Nat.le_refl _) hwf
      { st with nextId := st.nextId + 1 } fw (by omega)
    refine ⟨classPayload st.nextId rc [(strBytes ("value"), J.num m)] vbs, st₂, ?_, ?_⟩
    · rw [writeRoot]
      simp only []
      rw [hwv]
      simp only [ok_bind]
      simp only [classPayload, writeI32, List.map_cons, List.map_nil, List.flatten_cons,
        List.flatten_nil, List.append_nil, List.append_assoc, List.cons_append, List.nil_append,
        List.length_cons, List.length_nil, Nat.zero_add, Nat.cast_one]
      all_goals (intro x hx; exact J.noConfusion hx)
    · exact simRootScalarReader rc (J.num m) st.nextId hrc vbs hrv rfl rfl
  | .str s, hwf, hfw =>
    have h1 : 1 ≤ sizeOf (J.str s) := sizeOf_pos_j _
    obtain ⟨vbs, st₂, hwv, hrv⟩ := simValue (sizeOf (J.str s)) (J.str s) (Nat.le_refl _) hwf
      { st with nextId := st.nextId + 1 } fw (by omega)
    refine ⟨classPayload st.nextId rc [(strBytes ("value"), J.str s)] vbs, st₂, ?_, ?_⟩
    · rw [writeRoot]
      simp only []
      rw [hwv]
      simp only [ok_bind]
      simp only [classPayload, writeI32, List.map_cons, List.map_nil, List.flatten_cons,
        List.flatten_nil, List.append_nil, List.append_assoc, List.cons_append, List.nil_append,
        List.length_cons, List.length_nil, Nat.zero_add, Nat.cast_one]
      all_goals (intro x hx; exact J.noConfusion hx)
    · exact simRootScalarReader rc (J.str s) st.nextId hrc vbs hrv rfl rfl

theorem parseStream_header {data l : List Nat} {a b c d : Int}
    (h : data.drop 0 = ([0] ++ i32LE a ++ i32LE b ++ i32LE c ++ i32LE d) ++ l) (fr : Nat) :
    parseStream fr data = parseLoop fr data 17 emptyCtx none none := by
  have h' : data.drop 0 = 0 :: (i32LE a ++ (i32LE b ++ (i32LE c ++ (i32LE d ++ l)))) := by
    simpa [List.append_assoc] using h
  have e0 := readU8_chunk h'
  have d1 := (dropCons h').2
  have e1 := readI32_i32LE d1
  have d2 := dropChunk d1
  rw [len_i32LE] at d2
  have e2 := readI32_i32LE d2
  have d3 := dropChunk d2
  rw [len_i32LE] at d3
  have e3 := readI32_i32LE d3
  have d4 := dropChunk d3
  rw [len_i32LE] at d4
  have e4 := readI32_i32LE d4
  rw [parseStream, e0]
  simp only [ok_bind]
  norm_num
  rw [e1]
  simp only [ok_bind]
  rw [e2]
  simp only [ok_bind]
  rw [e3]
  simp only [ok_bind]
  rw [e4]
  simp only [ok_bind]

theorem parseLoop_lib {data l : List Nat} {pos : Nat} {libId : Int} {name : List Nat}
    (hu : utf8Valid name = true) (hlen : name.length < 2 ^ 35)
    (h : data.drop pos = ([12] ++ i32LE libId ++ writeLpStr name) ++ l) (g : Nat)
    (ctx : Ctx) (r : Option Int) (s : Option Val) :
    parseLoop (g + 1) data pos ctx r s =
      parseLoop g data (pos + 5 + (writeLpStr name).length)
        { ctx with
          libraries := alPut ctx.libraries (toI32 ((libId % (2 ^ 32 : Int)).toNat)) name }
        r s := by
  have h' : data.drop pos = 12 :: (i32LE libId ++ (writeLpStr name ++ l)) := by
    simpa [List.append_assoc] using h
  have e0 := readU8_chunk h'
  have d1 := (dropCons h').2
  have e1 := readI32_i32LE d1
  have d2 := dropChunk d1
  rw [len_i32LE] at d2
  have e2 := readLpString_chunk hlen hu d2
  rw [parseLoop, e0]
  simp only [ok_bind]
  norm_num
  rw [e1]
  simp only [ok_bind]
  rw [e2]
  simp only [ok_bind]
  norm_num

theorem parseLoop_root5 {data l : List Nat} {pos : Nat} {payload : List Nat}
    (h : data.drop pos = (5 :: payload) ++ l) {g : Nat} {ctx : Ctx}
    {id : Int} {v : Val} {ctx₁ : Ctx}
    (hRC : readClassWithMembersAndTypes g data (pos + 1) ctx =
      .ok (id, v, pos + 1 + payload.length, ctx₁)) :
    parseLoop (g + 1) data pos ctx none none =
      parseLoop g data (pos + 1 + payload.length)
        { ctx₁ with objects := alPut ctx₁.objects id v } (some id) (some v) := by
  have h' : data.drop pos = 5 :: (payload ++ l) := by simpa using h
  have e0 := readU8_chunk h'
  rw [parseLoop, e0]
  simp only [ok_bind]
  norm_num
  rw [hRC]
  simp only [ok_bind, Option.isNone_none]

theorem parseLoop_end {data l : List Nat} {pos : Nat}
    (h : data.drop pos = 11 :: l) (g : Nat) (ctx : Ctx) (r : Option Int) (s : Option Val) :
    parseLoop (g + 1) data pos ctx r s = .ok (⟨r, s, ctx⟩, pos + 1) := by
  have e0 := readU8_chunk h
  rw [parseLoop, e0]
  simp only [ok_bind]
  norm_num

theorem utf8_libGameName : utf8Valid libGameName = true := by decide

theorem utf8_libMscorlibName : utf8Valid libMscorlibName = true := by decide

theorem len_libGameName : libGameName.length < 2 ^ 35 := by decide

theorem len_libMscorlibName : libMscorlibName.length < 2 ^ 35 := by decide

/-- The effective root class name of write_binfmt_from_json: the
`$rootClass` string member of the wrapper if present, else "Root". -/
def rootClassOf (wrapper : List (List Nat × J)) : List Nat :=
  match (jGet wrapper (strBytes ("$rootClass"))).bind J.asStr with
  | some s => s
  | none => strBytes ("Root")

theorem len_lpGame : (writeLpStr libGameName).length = 60 := rfl

theorem len_lpMscorlib : (writeLpStr libMscorlibName).length = 76 := rfl

set_option maxHeartbeats 1600000 in
/-- Stream-level composition: write_binfmt_from_json emits header, two
library records, one root class record, and MessageEnd; parse_stream
walks them and returns the decoded root record value as the snapshot,
with object id 1 and full consumption of the buffer. -/
theorem simStream (wrapper : List (List Nat × J)) (tree : J) (V : Val) (FR : Nat)
    (hroot : jGet wrapper (strBytes ("root")) = some tree)
    (fw fr : Nat) (payload : List Nat) (st₂ : WState)
    (hwr : writeRoot fw (rootClassOf wrapper) tree ⟨1, 100⟩ = .ok (5 :: payload, st₂))
    (hread : ∀ (data l : List Nat) (pos : Nat) (ctx : Ctx) (fr' : Nat),
      data.drop pos = payload ++ l → FR ≤ fr' →
      ∃ ctx₂, readClassWithMembersAndTypes fr' data pos ctx =
        .ok (toI32 ((((⟨1, 100⟩ : WState)).nextId % (2 ^ 32 : Int)).toNat), V,
             pos + payload.length, ctx₂))
    (hfr : FR + 4 ≤ fr) :
    ∃ (bs : List Nat) (ctx : Ctx),
      writeBinfmtFromJson fw (J.obj wrapper) = .ok bs ∧
      parseStream fr bs = .ok (⟨some 1, some V, ctx⟩, bs.length) := by
  set D : List Nat := [0] ++ i32LE 1 ++ i32LE (-1) ++ i32LE 1 ++ i32LE 0 ++
      ([12] ++ i32LE 2 ++ writeLpStr libGameName) ++
      ([12] ++ i32LE 3 ++ writeLpStr libMscorlibName) ++ (5 :: payload) ++ [11] with hD
  have hwb : writeBinfmtFromJson fw (J.obj wrapper) = .ok D := by
    rw [writeBinfmtFromJson]
    cases hgc : (jGet wrapper (strBytes ("$rootClass"))).bind J.asStr with
    | some s =>
      have hrcs : rootClassOf wrapper = s := by rw [rootClassOf, hgc]
      rw [hrcs] at hwr
      rw [hroot]
      simp only []
      rw [hwr]
      simp only [ok_bind]
      rw [hD]
      simp [writeI32, List.append_assoc]
    | none =>
      have hrcs : rootClassOf wrapper = strBytes ("Root") := by rw [rootClassOf, hgc]
      rw [hrcs] at hwr
      rw [hroot]
      simp only []
      rw [hwr]
      simp only [ok_bind]
      rw [hD]
      simp [writeI32, List.append_assoc]
  have h0 : D.drop 0 = ([0] ++ i32LE 1 ++ i32LE (-1) ++ i32LE 1 ++ i32LE 0) ++
      (([12] ++ i32LE 2 ++ writeLpStr libGameName) ++
       (([12] ++ i32LE 3 ++ writeLpStr libMscorlibName) ++ ((5 :: payload) ++ [11]))) := by
    rw [hD]
    simp [List.append_assoc]
  obtain ⟨g₃, rfl⟩ : ∃ k, fr = k + 1 + 1 + 1 + 1 := ⟨fr - 4, by omega⟩
  have hH := parseStream_header h0 (g₃ + 1 + 1 + 1 + 1)
  have d1 := dropChunk h0
  have hHL : (([0] : List Nat) ++ i32LE 1 ++ i32LE (-1) ++ i32LE 1 ++ i32LE 0).length = 17 := by
    simp [len_i32LE]
  rw [hHL, Nat.zero_add] at d1
  have hl2 := parseLoop_lib utf8_libGameName len_libGameName d1 (g₃ + 1 + 1 + 1) emptyCtx
    none none
  have d2 := dropChunk d1
  have hL2L : (([12] : List Nat) ++ i32LE 2 ++ writeLpStr libGameName).length = 65 := by
    simp [len_i32LE, len_lpGame]
  rw [hL2L] at d2
  have hl3 := parseLoop_lib utf8_libMscorlibName len_libMscorlibName d2 (g₃ + 1 + 1)
    { emptyCtx with
      libraries := alPut emptyCtx.libraries (toI32 ((2 % (2 ^ 32 : Int)).toNat)) libGameName }
    none none
  have d3 := dropChunk d2
  have hL3L : (([12] : List Nat) ++ i32LE 3 ++ writeLpStr libMscorlibName).length = 81 := by
    simp [len_i32LE, len_lpMscorlib]
  rw [hL3L] at d3
  have d3' : D.drop (17 + 65 + 81) = 5 :: (payload ++ [11]) := by simpa using d3
  have d4 := (dropCons d3').2
  obtain ⟨ctxR, hRC⟩ := hread D [11] (17 + 65 + 81 + 1)
    { { emptyCtx with
        libraries := alPut emptyCtx.libraries (toI32 ((2 % (2 ^ 32 : Int)).toNat)) libGameName }
      with libraries := alPut ({ emptyCtx with
        libraries := alPut emptyCtx.libraries (toI32 ((2 % (2 ^ 32 : Int)).toNat))
          libGameName }).libraries (toI32 ((3 % (2 ^ 32 : Int)).toNat)) libMscorlibName }
    (g₃ + 1) d4 (by omega)
  have hroot5 := parseLoop_root5 d3' hRC
  have dend := dropChunk d4
  have hparse := hH.trans (hl2.trans (hl3.trans (hroot5.trans
    (parseLoop_end dend g₃ _ _ _))))
  have hlen : D.length = 17 + 65 + 81 + 1 + payload.length + 1 := by
    rw [hD]
    simp only [List.length_append, List.length_cons, List.length_nil, len_i32LE, len_lpGame,
      len_lpMscorlib]
    omega
  have hid : toI32 ((({ nextId := 1, nextStrId := 100 } : WState).nextId %
      (2 ^ 32 : Int)).toNat) = 1 := by
    norm_num [toI32]
  rw [hid] at hparse
  exact ⟨D, _, hwb, hparse.trans (by rw [hlen])⟩

/-- C1: for every wrapper whose "root" member is a well-formed tree of
scalars, strings, and nested plain objects (wfJ: numbers in their serde
ranges, UTF-8 strings, no arrays, no byte-summary markers, distinct
member names), writing with write_binfmt_from_json and re-parsing with
parse_stream succeeds, consumes the whole stream, and yields the root
object with the same class names and the same scalar member values, the
members sorted by name (the Writer's normalization). -/
theorem c1_writer_reader_roundtrip (wrapper : List (List Nat × J)) (tree : J)
    (hroot : jGet wrapper (strBytes ("root")) = some tree)
    (hwf : wfJ tree = true)
    (hrc : wfStr (rootClassOf wrapper) = true)
    (fw fr : Nat) (hfw : 3 * sizeOf tree + 8 ≤ fw) (hfr : 3 * sizeOf tree + 8 ≤ fr) :
    ∃ (bs : List Nat) (ctx : Ctx),
      writeBinfmtFromJson fw (J.obj wrapper) = .ok bs ∧
      parseStream fr bs =
        .ok (⟨some 1, some (decodedRoot (rootClassOf wrapper) tree), ctx⟩, bs.length) := by
  obtain ⟨payload, st₂, hwr, hread⟩ :=
    simRootRecord (rootClassOf wrapper) tree hrc hwf ⟨1, 100⟩ fw (by omega)
  exact simStream wrapper tree (decodedRoot (rootClassOf wrapper) tree)
    (3 * sizeOf tree + 3) hroot fw fr payload st₂ hwr hread (by omega)

/-- C1 witness: a concrete wrapper with one integer member round-trips. -/
theorem c1_writer_reader_roundtrip_witness :
    ∃ (bs : List Nat) (ctx : Ctx),
      writeBinfmtFromJson (3 * sizeOf (J.obj [(strBytes ("a"), J.num (.int 5))]) + 8)
        (J.obj [(strBytes ("root"), J.obj [(strBytes ("a"), J.num (.int 5))])]) = .ok bs ∧
      parseStream (3 * sizeOf (J.obj [(strBytes ("a"), J.num (.int 5))]) + 8) bs =
        .ok (⟨some 1, some (decodedRoot (rootClassOf
            [(strBytes ("root"), J.obj [(strBytes ("a"), J.num (.int 5))])])
            (J.obj [(strBytes ("a"), J.num (.int 5))])), ctx⟩, bs.length) :=
  c1_writer_reader_roundtrip _ _ (by rfl) (by decide) (by decide) _ _ (Nat.le_refl _)
    (Nat.le_refl _)

theorem isStringArray_bytes (ks : List Nat) :
    isStringArray (ks.map fun (k : Nat) => J.num (.int (k : Int))) = false := by
  cases ks with
  | nil => rfl
  | cons k rest => simp [isStringArray, J.isString]

theorem inferLoop_int64 : ∀ (ks : List Nat),
    inferLoop (ks.map fun (k : Nat) => J.num (.int (k : Int))) (some .int64) = some (some .int64) := by
  intro ks
  induction ks with
  | nil => rfl
  | cons k rest ih => simpa [inferLoop, elemKind] using ih

theorem allByte_bytes (ks : List Nat) (hk : ∀ k ∈ ks, k ≤ 255) :
    allByte (ks.map fun (k : Nat) => J.num (.int (k : Int))) = true := by
  rw [allByte, List.all_eq_true]
  intro v hv
  obtain ⟨k, hkm, rfl⟩ := List.mem_map.1 hv
  simp only [J.asU64, JNum.asU64, Int.natCast_nonneg, if_true, Int.toNat_natCast,
    decide_eq_true_eq]
  exact hk k hkm

theorem inferByte (ks : List Nat) (hne : ks ≠ []) (hk : ∀ k ∈ ks, k ≤ 255) :
    inferPrimitiveArrayType (ks.map fun (k : Nat) => J.num (.int (k : Int))) = some .byte := by
  cases ks with
  | nil => exact absurd rfl hne
  | cons k0 rest =>
    rw [inferPrimitiveArrayType]
    simp only [List.map_cons, List.isEmpty_cons, Bool.false_eq_true, if_false]
    rw [show inferLoop (J.num (.int (k0 : Int)) :: rest.map fun (k : Nat) => J.num (.int (k : Int)))
        none = some (some .int64) from by simpa [inferLoop, elemKind] using inferLoop_int64 rest]
    have hab := allByte_bytes (k0 :: rest) hk
    simp only [List.map_cons] at hab
    rw [hab]
    rfl

theorem byteElems_map : ∀ (ks : List Nat), (∀ k ∈ ks, k ≤ 255) →
    byteElems (ks.map fun (k : Nat) => J.num (.int (k : Int))) = .ok ks := by
  intro ks
  induction ks with
  | nil => intro _; rfl
  | cons k rest ih =>
    intro hk
    have hk0 := hk k (List.mem_cons_self ..)
    rw [List.map_cons, byteElems]
    simp only [JNum.asU64, Int.natCast_nonneg, if_true, Int.toNat_natCast]
    rw [ih (fun q hq => hk q (List.mem_cons.2 (Or.inr hq)))]
    simp only [ok_bind]
    rw [Nat.mod_eq_of_lt (by omega)]

theorem readPrimLoop_bytes : ∀ (ks data l : List Nat) (pos : Nat),
    data.drop pos = ks ++ l →
    readPrimLoop .byte data ks.length pos = .ok (ks.map Val.u8, pos + ks.length) := by
  intro ks
  induction ks with
  | nil => intro data l pos h; simp [readPrimLoop]
  | cons k rest ih =>
    intro data l pos h
    rw [List.cons_append] at h
    have e0 := readU8_chunk h
    have d1 := (dropCons h).2
    have e1 := ih data l (pos + 1) d1
    simp only [List.length_cons, readPrimLoop, readInlinePrimitive, e0, ok_bind, e1,
      List.map_cons]
    congr 2
    omega

theorem c7HM (ks : List Nat) (id2 : Int) (pt : PrimType) (hlen : ks.length < 2 ^ 31)
    (hexp : expectedBinType (J.arr (ks.map fun (k : Nat) => J.num (.int (k : Int)))) =
      .primitiveArray pt)
    (hloop : ∀ (data l : List Nat) (pos : Nat), data.drop pos = ks ++ l →
      readPrimLoop pt data ks.length pos = .ok (ks.map Val.u8, pos + ks.length)) :
    ∀ (data l : List Nat) (pos : Nat) (ctx : Ctx) (fr : Nat),
      data.drop pos =
        ([15] ++ i32LE id2 ++ i32LE (ks.length : Int) ++ [writePrimTypeByte pt] ++ ks) ++ l →
      3 ≤ fr →
      ∃ ctx₂, readMembersTyped fr data
          ([(strBytes ("items"), J.arr (ks.map fun (k : Nat) => J.num (.int (k : Int))))].map
            fun p => (p.1, expectedBinType p.2)) pos ctx =
        .ok ([(strBytes ("items"), Val.arr (ks.map Val.u8))],
             pos + ([15] ++ i32LE id2 ++ i32LE (ks.length : Int) ++
               [writePrimTypeByte pt] ++ ks).length, ctx₂) := by
  intro data l pos ctx fr h hfr
  obtain ⟨m, rfl⟩ : ∃ m, fr = m + 1 + 1 + 1 := ⟨fr - 3, by omega⟩
  have hc32 : ks.length < 2 ^ 32 := by omega
  have h' : data.drop pos =
      15 :: (i32LE id2 ++ (natToLE 4 ks.length ++ (writePrimTypeByte pt :: (ks ++ l)))) := by
    rw [i32LE_ofNat hc32] at h
    simpa [List.append_assoc] using h
  have hp := peek_chunk h'
  have d1 := (dropCons h').2
  have e1 := readI32_i32LE d1
  have d2 := dropChunk d1
  rw [len_i32LE] at d2
  have e2 := readI32_chunk d2 hc32
  have d3 := dropChunk d2
  rw [length_natToLE] at d3
  have e3 := readPrimitiveType_chunk pt d3
  have d4 := (dropCons d3).2
  have e4 := hloop data l _ d4
  refine ⟨{ ctx with objects := alPut ctx.objects (toI32 ((id2 % (2 ^ 32 : Int)).toNat)) (Val.arr (ks.map Val.u8)) }, ?_⟩
  simp only [List.map_cons, List.map_nil, hexp]
  rw [readMembersTyped]
  rw [readMemberOfType]
  rw [readNextPrimitiveArray, hp]
  dsimp only
  rw [if_pos rfl]
  rw [readArraySinglePrimitive, e1]
  simp only [ok_bind]
  rw [e2]
  simp only [ok_bind]
  rw [usizeOfI32_ofNat hlen, e3]
  simp only [ok_bind]
  rw [e4]
  simp only [ok_bind]
  rw [readMembersTyped]
  simp only [ok_bind]
  simp only [List.length_append, List.length_cons, List.length_nil, len_i32LE, length_natToLE,
    Except.ok.injEq, Prod.mk.injEq]
  refine ⟨trivial, ?_, trivial⟩
  omega

set_option maxHeartbeats 1600000 in
/-- C7: a JSON array of integers 0..=255 under the "root" member is
written as an ArraySinglePrimitive record (Byte kind when non-empty,
Int32 kind when empty) inside the root record's "items" member, and
parsing the produced stream yields exactly those byte values, in order. -/
theorem c7_byte_array_roundtrip (wrapper : List (List Nat × J)) (ks : List Nat)
    (hroot : jGet wrapper (strBytes ("root")) =
      some (J.arr (ks.map fun (k : Nat) => J.num (.int (k : Int)))))
    (hk : ∀ k ∈ ks, k ≤ 255) (hlen : ks.length < 2 ^ 31)
    (hrc : wfStr (rootClassOf wrapper) = true)
    (fw fr : Nat) (hfw : 12 ≤ fw) (hfr : 12 ≤ fr) :
    ∃ (bs : List Nat) (ctx : Ctx),
      writeBinfmtFromJson fw (J.obj wrapper) = .ok bs ∧
      parseStream fr bs = .ok (⟨some 1,
        some (.obj (rootClassOf wrapper) 2 [(strBytes ("items"), Val.arr (ks.map Val.u8))]),
        ctx⟩, bs.length) := by
  have hstr := isStringArray_bytes ks
  obtain ⟨pt, hinf, hloop, hwa⟩ :
      ∃ pt : PrimType,
        inferPrimitiveArrayType (ks.map fun (k : Nat) => J.num (.int (k : Int))) = some pt ∧
        (∀ (data l : List Nat) (pos : Nat), data.drop pos = ks ++ l →
          readPrimLoop pt data ks.length pos = .ok (ks.map Val.u8, pos + ks.length)) ∧
        (∀ (f : Nat) (st : WState),
          writeArray (f + 1) (ks.map fun (k : Nat) => J.num (.int (k : Int))) st =
            .ok ([15] ++ i32LE st.nextId ++ i32LE (ks.length : Int) ++
                  [writePrimTypeByte pt] ++ ks,
              { st with nextId := st.nextId + 1 })) := by
    cases ks with
    | nil =>
      refine ⟨.int32, rfl, ?_, ?_⟩
      · intro data l pos h
        simp [readPrimLoop]
      · intro f st
        rw [writeArray]
        rfl
    | cons k0 krest =>
      refine ⟨.byte, inferByte _ (by simp) hk, readPrimLoop_bytes _, ?_⟩
      intro f st
      rw [writeArray]
      simp only [isStringArray_bytes, Bool.false_eq_true, if_false,
        inferByte _ (by simp) hk]
      rw [byteElems_map _ hk]
      simp only [ok_bind]
      simp [writePrimitiveArrayU8, writeI32]
  have hexp : expectedBinType (J.arr (ks.map fun (k : Nat) => J.num (.int (k : Int)))) =
      .primitiveArray pt := by
    rw [expectedBinType]
    rw [hstr]
    simp only [Bool.false_eq_true, if_false, hinf]
  obtain ⟨f, rfl⟩ : ∃ f, fw = f + 1 := ⟨fw - 1, by omega⟩
  have hwr : writeRoot (f + 1) (rootClassOf wrapper)
      (J.arr (ks.map fun (k : Nat) => J.num (.int (k : Int)))) ⟨1, 100⟩ =
      .ok (5 :: classPayload 1 (rootClassOf wrapper)
        [(strBytes ("items"), J.arr (ks.map fun (k : Nat) => J.num (.int (k : Int))))]
        ([15] ++ i32LE 2 ++ i32LE (ks.length : Int) ++ [writePrimTypeByte pt] ++ ks),
        ⟨3, 100⟩) := by
    rw [writeRoot]
    dsimp only
    rw [hstr]
    simp only [Bool.false_eq_true, if_false, hinf]
    rw [hwa]
    simp only [ok_bind]
    simp only [classPayload, writeI32, List.map_cons, List.map_nil, List.flatten_cons,
      List.flatten_nil, List.append_nil, List.append_assoc, List.cons_append, List.nil_append,
      List.length_cons, List.length_nil, Nat.zero_add, Nat.cast_one, binTypeCode,
      extraTypeBytes, maybePrimType, hstr, hinf]
    rfl
  have hshape : memberShapeOk
      (J.arr (ks.map fun (k : Nat) => J.num (.int (k : Int)))) = true := by
    rw [memberShapeOk, hstr, hinf]
    rfl
  have hread := simRCWMAT
    [(strBytes ("items"), J.arr (ks.map fun (k : Nat) => J.num (.int (k : Int))))]
    (rootClassOf wrapper) 1
    ([15] ++ i32LE 2 ++ i32LE (ks.length : Int) ++ [writePrimTypeByte pt] ++ ks) 3 hrc
    (by simp)
    (by
      intro p hp
      rw [List.mem_singleton] at hp
      subst hp
      show wfStr (strBytes ("items")) = true
      decide)
    (by
      intro p hp
      rw [List.mem_singleton] at hp
      subst hp
      exact hshape)
    (c7HM ks 2 pt hlen hexp hloop)
  exact simStream wrapper _ _ (3 + 1) hroot (f + 1) fr _ _ hwr hread (by omega)



/-- C7 witness: the concrete byte array [1, 2, 255] round-trips. -/
theorem c7_byte_array_roundtrip_witness :
    ∃ (bs : List Nat) (ctx : Ctx),
      writeBinfmtFromJson 12 (J.obj [(strBytes ("root"),
        J.arr ([1, 2, 255].map fun (k : Nat) => J.num (.int (k : Int))))]) = .ok bs ∧
      parseStream 12 bs = .ok (⟨some 1,
        some (.obj (rootClassOf [(strBytes ("root"),
            J.arr ([1, 2, 255].map fun (k : Nat) => J.num (.int (k : Int))))]) 2
          [(strBytes ("items"), Val.arr ([1, 2, 255].map Val.u8))]), ctx⟩, bs.length) :=
  c7_byte_array_roundtrip [(strBytes ("root"),
      J.arr ([1, 2, 255].map fun (k : Nat) => J.num (.int (k : Int))))] [1, 2, 255] rfl
    (by decide) (by decide) (by decide) 12 12 (Nat.le_refl _) (Nat.le_refl _)

end WLE
